import Mathlib

/-!
# Alias-this resolution of the D front end (`src/aliasthis.c`)

A shallow embedding of `iterateAliasThis`, `aliasThisOf`, `getAliasThisTypes`,
`resolveAliasThis`, `isAliasThisTuple`, `expandAliasThisTuples` and
`AliasThis::semantic`, followed by theorems about them.

Conventions of the embedding
* Pointers to symbols and to aggregates are handles (`Nat`); what the code reads
  through such a pointer is a field of `Frontend` (declarations of the other
  front-end files) or of `Heap` (the `aliasThisSymbols` arrays, which
  `AliasThis::semantic` mutates).
* Functions that the code calls but that live in other files of the compiler
  (`Type::equals`, `Dsymbol::toAlias`, `Expression::semantic`, ...) are fields
  of `Frontend`.
* Recursive functions carry a fuel argument; running out of fuel is the fault
  `Fault.fuel`, dereferencing a null pointer or indexing past the end of an
  array is the fault `Fault.null`, a failed `assert` is `Fault.assertion`.
-/

namespace Dmd

/-! ## Data model -/

/-- The values of `Type::ty` that `aliasthis.c` distinguishes. -/
inductive TY
  | Tstruct
  | Tclass
  | Tfunction
  | Terror
  | Tother
  deriving DecidableEq, Repr

/-- The values of `Expression::op` that `aliasthis.c` distinguishes. -/
inductive TOK
  | TOKtype
  | TOKvar
  | TOKdsymbol
  | TOKother
  deriving DecidableEq, Repr

/-- A symbol (`Dsymbol *`) is a handle. -/
abbrev Dsymbol := Nat

/-- An identifier (`Identifier *`). -/
abbrev Identifier := String

/-- The fields of a `Type` that the code reads: the kind tag `ty`, the mangled
name `deco` (the identity key of the type), the modifier bits `mod`, the
aggregate `sym` of a `TypeStruct` or `TypeClass`, and the flags `att`. -/
structure Type_ where
  ty : TY
  deco : String
  mod : Nat := 0
  sym : Nat := 0
  att : Nat := 0
  deriving DecidableEq, Repr

/-- Expressions. `Exp` is a node produced by another part of the compiler
(identified by `id`); the other constructors are the nodes that `aliasthis.c`
allocates itself. -/
inductive Expression
  | Exp (id : Nat) (op : TOK) (type : Option Type_) (var : Option Dsymbol)
  | DotIdExp (e1 : Expression) (ident : Identifier)
  | VarExp (var : Dsymbol)
  | CallExp (e1 : Expression)
  | TypeExp (typeofExp : Expression)
  | DotVarExp (e1 : Expression) (var : Dsymbol) (type : Option Type_)
  deriving DecidableEq, Repr

/-- The field `Expression::type`; null on a freshly allocated node. -/
def Expression.type : Expression → Option Type_
  | .Exp _ _ t _ => t
  | .DotVarExp _ _ t => t
  | _ => none

/-- The field `Expression::op`. -/
def Expression.op : Expression → TOK
  | .Exp _ op _ _ => op
  | .VarExp _ => .TOKvar
  | .TypeExp _ => .TOKtype
  | _ => .TOKother

/-- The field `VarExp::var`. -/
def Expression.var : Expression → Option Dsymbol
  | .Exp _ _ _ v => v
  | .VarExp v => some v
  | .DotVarExp _ v _ => some v
  | _ => none

abbrev Expressions := List Expression
abbrev Types := List Type_

/-- The dynamic class of a symbol, as probed by the `isXxx()` methods.
`VarDeclaration`, `FuncDeclaration`, `AliasDeclaration`, `TupleDeclaration`
and `OtherDeclaration` are the subclasses of `Declaration`. -/
inductive DsymbolKind
  | VarDeclaration
  | FuncDeclaration
  | AliasDeclaration
  | TupleDeclaration
  | OtherDeclaration
  | EnumDeclaration
  | TemplateDeclaration
  | AggregateDeclaration
  | Other
  deriving DecidableEq, Repr

def DsymbolKind.isDeclaration : DsymbolKind → Bool
  | .VarDeclaration | .FuncDeclaration | .AliasDeclaration
  | .TupleDeclaration | .OtherDeclaration => true
  | _ => false

/-- An entry of `ClassDeclaration::baseclasses`. -/
structure BaseClass where
  type : Option Type_
  base : Nat
  deriving DecidableEq, Repr

/-- An element of `TupleDeclaration::objects`: `isExpression` of it, and, for a
`DsymbolExp`, its symbol. -/
structure RootObject where
  isExpression : Option Expression
  s : Option Dsymbol := none
  deriving DecidableEq, Repr

/-- A `FuncDeclaration` as returned by `resolveFuncCall`: its `errors` flag,
its `type`, and what `functionSemantic()` does to it (the return value and the
`type` afterwards). -/
structure FuncDeclaration where
  errors : Bool
  type : Type_
  functionSemantic : Bool
  typeAfterSemantic : Type_
  deriving DecidableEq, Repr

/-- A `Scope`: the field `intypeof` and the enclosing symbol `parent->pastMixin()`. -/
structure Scope where
  intypeof : Nat := 0
  parent : Dsymbol := 0
  deriving DecidableEq, Repr

/-- Faults of the embedding. -/
inductive Fault
  | fuel
  | null
  | assertion
  deriving DecidableEq, Repr

/-- The declarations and functions of the rest of the front end that
`aliasthis.c` uses. -/
structure Frontend where
  /-- The method `Type::toBasetype()` -/
  toBasetype : Type_ → Type_
  /-- The method `Type::equals(o)`, receiver first -/
  equals : Type_ → Type_ → Bool
  /-- The method `Type::nextOf()` -/
  nextOf : Type_ → Option Type_
  /-- The method `Type::addMod(mod)` -/
  addMod : Type_ → Nat → Type_
  /-- The method `Type::substWildTo(mod)` -/
  substWildTo : Type_ → Nat → Type_
  /-- The field `TypeFunction::isref` -/
  isref : Type_ → Bool
  /-- The call `Type::toDsymbol(NULL)` -/
  toDsymbol : Type_ → Option Dsymbol
  /-- The method `Type::implicitConvTo(to)`, as a `MATCH` value -/
  implicitConvTo : Type_ → Type_ → Nat
  /-- The singleton `Type::terror` -/
  terror : Type_
  MODmutable : Nat
  RECtracing : Nat
  MATCHnomatch : Nat
  /-- The dynamic class of a symbol -/
  kind : Dsymbol → DsymbolKind
  /-- The field `Dsymbol::ident` -/
  ident : Dsymbol → Identifier
  /-- The method `Dsymbol::toAlias()` -/
  toAlias : Dsymbol → Dsymbol
  /-- The method `Dsymbol::needThis()` -/
  needThis : Dsymbol → Bool
  /-- The method `Dsymbol::equals(o)`, receiver first -/
  symEquals : Dsymbol → Dsymbol → Bool
  /-- The fields `Declaration::type` and `EnumDeclaration::type` -/
  declType : Dsymbol → Option Type_
  /-- Whether `TemplateDeclaration::scope` is set -/
  hasScope : Dsymbol → Bool
  /-- The field `TupleDeclaration::isexp` -/
  isexp : Dsymbol → Bool
  /-- The field `TupleDeclaration::objects` -/
  objects : Dsymbol → List RootObject
  /-- The field `AggregateDeclaration::type` -/
  aggType : Nat → Type_
  /-- The method `AggregateDeclaration::isClassDeclaration()` -/
  isClassDeclaration : Nat → Bool
  /-- The field `ClassDeclaration::baseclasses` -/
  baseclasses : Nat → List BaseClass
  /-- The call `ScopeDsymbol::search(loc, ident)` on an aggregate -/
  search : Nat → Identifier → Option Dsymbol
  /-- The call `Scope::search(loc, ident, NULL)` -/
  scopeSearch : Scope → Identifier → Option Dsymbol
  /-- The call `resolveFuncCall(Loc(), NULL, s, NULL, tthis, NULL, 1)` -/
  resolveFuncCall : Dsymbol → Type_ → Option FuncDeclaration
  /-- The method `Expression::semantic(sc)`: the result and the number of errors reported -/
  semantic : Scope → Expression → Expression × Nat
  /-- The function `resolveProperties(sc, e)`: the result and the number of errors reported -/
  resolveProperties : Scope → Expression → Expression × Nat
  /-- The method `FuncDeclaration::overloadModMatch(loc, tthis, t)`: the function found
  and the out parameter `t` -/
  overloadModMatch : Dsymbol → Type_ → Option Dsymbol × Option Type_
  /-- The method `Expression::castTo(sc, t)` -/
  castTo : Scope → Expression → Type_ → Expression

/-- The mutable part of the aggregates: `AggregateDeclaration::aliasThisSymbols`
is a pointer (null, or the address of a `Dsymbols` array) and `arrays` gives
the content of the array at each address; `next` is the next free address. -/
structure Heap where
  aliasThisSymbols : Nat → Option Nat
  arrays : Nat → List Dsymbol
  next : Nat

/-- The array behind `ad->aliasThisSymbols`, when the pointer is not null. -/
def Heap.symbols (H : Heap) (ad : Nat) : Option (List Dsymbol) :=
  (H.aliasThisSymbols ad).map H.arrays

/-- Modelled from the spec: `isAggregate(Type *)` is defined in another file of
the compiler; it is "the aggregate underlying the type": the symbol of the
struct or class type that `toBasetype` yields, null for any other type. -/
def isAggregate (F : Frontend) (t : Type_) : Option Nat :=
  let tb := F.toBasetype t
  if tb.ty = TY.Tclass then some tb.sym
  else if tb.ty = TY.Tstruct then some tb.sym
  else none

/-! ## `StringTable` -/

/-- A `StringTable`: the entries (key, `ptrvalue`) in insertion order. -/
abbrev StringTable := List (String × Option Expression)

/-- The method `StringTable::lookup`: the `ptrvalue` of the entry of `key`, if there is one. -/
def StringTable.lookup (t : StringTable) (key : String) : Option (Option Expression) :=
  List.lookup key t

/-- The method `StringTable::insert` followed by the assignment of `ptrvalue` (only called
when `lookup` found nothing). -/
def StringTable.insert (t : StringTable) (key : String) (v : Option Expression) : StringTable :=
  t ++ [(key, v)]

/-- Assignment to `ptrvalue` through the `StringValue *` of `key`. -/
def StringTable.setValue (t : StringTable) (key : String) (v : Option Expression) : StringTable :=
  t.map (fun p => if p.1 = key then (p.1, v) else p)

/-! ## `resolveAliasThis` (lines 257-302) -/

/-- The expression that forwards `e` to its alias-this symbol number `num`,
together with the number of errors reported while building it. Line 271 reads
`((VarExp *)e)->var->isFuncDeclaration()`: a node whose `op` is `TOKvar` and
whose `var` is null is a null dereference. -/
def resolveAliasThis (F : Frontend) (H : Heap) (sc : Scope) (e : Expression) (num : Nat) :
    Except Fault (Expression × Nat) :=
  match e.type with
  | none => .error .null
  | some type =>
    match isAggregate F type with
    | none => .ok (e, 0)
    | some ad =>
      match H.symbols ad with
      | none => .ok (e, 0)
      | some aliasThisSymbols =>
        match aliasThisSymbols[num]? with
        | none => .error .null
        | some s =>
          let tthis : Option Type_ := if e.op = TOK.TOKtype then some type else none
          let (e0, n0) := F.semantic sc (.DotIdExp e (F.ident s))
          match tthis with
          | some tthis =>
            if F.needThis s then
              let better : Except Fault (Option Expression) :=
                if e0.op = TOK.TOKvar then
                  match e0.var with
                  | some v =>
                    if F.kind v = DsymbolKind.FuncDeclaration then
                      match F.overloadModMatch v tthis with
                      | (some f, some _) => .ok (some (.CallExp (.VarExp f)))
                      | _ => .ok none
                    else .ok none
                  | none => .error .null
                else .ok none
              match better with
              | .error f => .error f
              | .ok better =>
                let (e1, n1) :=
                  match better with
                  | some call => (call, 0)
                  | none => F.resolveProperties { sc with intypeof := 1 } e0
                let (e2, n2) := F.semantic sc (.TypeExp e1)
                let (e3, n3) := F.resolveProperties sc e2
                .ok (e3, n0 + n1 + n2 + n3)
            else
              let (e3, n3) := F.resolveProperties sc e0
              .ok (e3, n0 + n3)
          | none =>
            let (e3, n3) := F.resolveProperties sc e0
            .ok (e3, n0 + n3)

/-! ## `iterateAliasThis` (lines 43-134) -/

/-- What a call of `iterateAliasThis` leaves behind: the return value `r`, the
state of the context `ctx` of the delegate, the array `ret`, and the table
`directtypes` the call worked on (null when it returned before creating one). -/
structure IterResult (Ctx : Type) where
  r : Bool
  ctx : Ctx
  ret : Expressions
  directtypes : Option StringTable

/-- The variables of `iterateAliasThis` that its two loops update. -/
structure IterState (Ctx : Type) where
  r : Bool
  ctx : Ctx
  ret : Expressions
  directtypes : StringTable

/-- The type of the callback `dg`: from the scope, the candidate and the
context to the return value, the out parameter `outexpr` and the context
afterwards. -/
abbrev Delegate (Ctx : Type) := Scope → Expression → Ctx → Bool × Option Expression × Ctx

/-- The type of the recursive call of `iterateAliasThis` inside its loops. -/
abbrev IterCall (Ctx : Type) :=
  Expression → Ctx → Expressions → Option StringTable → Except Fault (IterResult Ctx)

/-- One recursive call from inside a loop (lines 114 and 128):
`r = iterateAliasThis(sc, e1, dg, ctx, ret, gagerrors, directtypes) || r`. -/
def recurse {Ctx : Type} (self : IterCall Ctx) (e1 : Expression) (st : IterState Ctx) :
    Except Fault (IterState Ctx) :=
  match self e1 st.ctx st.ret (some st.directtypes) with
  | .error f => .error f
  | .ok res =>
    .ok { r := res.r || st.r, ctx := res.ctx, ret := res.ret,
          directtypes := res.directtypes.getD st.directtypes }

/-- Lines 107-110: `if (e2) ret->push(e2)`. -/
def pushNonNull (ret : Expressions) (e2 : Option Expression) : Expressions :=
  match e2 with
  | some x => ret ++ [x]
  | none => ret

/-- The loop of lines 90-116 over the indices `i` of `aliasThisSymbols`. The
`assert(e1->type->deco)` of line 101 holds by construction: `deco` is a total
field of `Type_`. -/
def directLoop {Ctx : Type} (F : Frontend) (H : Heap) (dg : Delegate Ctx) (self : IterCall Ctx)
    (sc : Scope) (e : Expression) (gagerrors : Bool) :
    List Nat → IterState Ctx → Except Fault (IterState Ctx)
  | [], st => .ok st
  | i :: rest, st =>
    match resolveAliasThis F H sc e i with
    | .error f => .error f
    | .ok (e1, errors) =>
      if gagerrors && decide (errors ≠ 0) then
        directLoop F H dg self sc e gagerrors rest st
      else
        match e1.type with
        | none => .error .null
        | some t1 =>
          if t1.ty = TY.Terror then
            directLoop F H dg self sc e gagerrors rest st
          else
            match dg sc e1 st.ctx with
            | (success, e2, ctx) =>
              let st1 : IterState Ctx :=
                { r := st.r || success, ctx := ctx,
                  ret := pushNonNull st.ret e2,
                  directtypes := st.directtypes }
              if !success then
                match recurse self e1 st1 with
                | .error f => .error f
                | .ok st2 => directLoop F H dg self sc e gagerrors rest st2
              else
                directLoop F H dg self sc e gagerrors rest st1

/-- The loop of lines 123-129 over the base classes of the class `cd`
(`cd->baseclasses` is a total field, so the `assert` of line 122 holds). -/
def baseLoop {Ctx : Type} (F : Frontend) (self : IterCall Ctx) (sc : Scope) (e : Expression) :
    List BaseClass → IterState Ctx → Except Fault (IterState Ctx)
  | [], st => .ok st
  | b :: rest, st =>
    let bt := F.aggType b.base
    let e1 := F.castTo sc e bt
    match recurse self e1 st with
    | .error f => .error f
    | .ok st1 => baseLoop F self sc e rest st1

/-- Lines 71-84: look the key `e->type->deco` up in `directtypes`. The result
is null when the type is being explored already (line 79), otherwise the table
with the entry of the key set to `e`. -/
def markVisited (directtypes : StringTable) (type : Type_) (e : Expression) :
    Option StringTable :=
  match directtypes.lookup type.deco with
  | none => some (directtypes.insert type.deco (some e))
  | some (some _) => none
  | some none => some (directtypes.setValue type.deco (some e))

/-- Lines 86-130: the loop over the alias-this symbols followed by the loop over
the base classes. -/
def loops {Ctx : Type} (F : Frontend) (H : Heap) (dg : Delegate Ctx) (self : IterCall Ctx)
    (sc : Scope) (e : Expression) (type : Type_) (gagerrors : Bool) (st0 : IterState Ctx) :
    Except Fault (IterState Ctx) :=
  let aliasThisSymbols : Option (List Dsymbol) := H.symbols (F.toBasetype type).sym
  let afterDirect : Except Fault (IterState Ctx) :=
    match aliasThisSymbols with
    | some syms => directLoop F H dg self sc e gagerrors (List.range syms.length) st0
    | none => .ok st0
  match afterDirect with
  | .error f => .error f
  | .ok st1 =>
    if type.ty = TY.Tclass then
      baseLoop F self sc e (F.baseclasses type.sym) st1
    else .ok st1

/-- The embedding of `iterateAliasThis`. -/
def iterateAliasThis {Ctx : Type} (F : Frontend) (H : Heap) (dg : Delegate Ctx) :
    Nat → Scope → Expression → Ctx → Expressions → Bool → Option StringTable →
      Except Fault (IterResult Ctx)
  | 0, _, _, _, _, _, _ => .error .fuel
  | fuel + 1, sc, e, ctx, ret, gagerrors, directtypes =>
    match e.type with
    | none => .error .null
    | some type =>
      if (F.toBasetype type).ty = TY.Tstruct ∨ (F.toBasetype type).ty = TY.Tclass then
        let directtypes0 : StringTable := directtypes.getD []
        match markVisited directtypes0 type e with
        | none => .ok { r := false, ctx := ctx, ret := ret, directtypes := some directtypes0 }
        | some directtypes1 =>
          let self : IterCall Ctx :=
            fun e1 ctx1 ret1 dt1 => iterateAliasThis F H dg fuel sc e1 ctx1 ret1 gagerrors dt1
          match loops F H dg self sc e type gagerrors
              { r := false, ctx := ctx, ret := ret, directtypes := directtypes1 } with
          | .error f => .error f
          | .ok st2 =>
            .ok { r := st2.r, ctx := st2.ctx, ret := st2.ret,
                  directtypes := some (st2.directtypes.setValue type.deco none) }
      else
        .ok { r := false, ctx := ctx, ret := ret, directtypes := directtypes }

/-! ## Notions used in the statements -/

/-- Whether the entry of `key` exists and holds a non-null `ptrvalue`: the type
with this key is being explored. -/
def StringTable.isMarked (t : StringTable) (key : String) : Bool :=
  match t.lookup key with
  | some (some _) => true
  | _ => false

/-- The two tables mark the same keys as being explored. -/
def SameMarks (t t' : StringTable) : Prop := ∀ k, t'.isMarked k = t.isMarked k

/-- The number of keys of `keys` that the table does not mark. -/
def unmarked (keys : List String) (t : StringTable) : Nat :=
  keys.countP (fun k => !t.isMarked k)

/-- The delegation graph is finite: every candidate expression (the result of
the final `resolveProperties` of `resolveAliasThis`) and every cast to the type
of a base class has a type, and the keys of these types all lie in the list
`keys`. The expressions of the graph are well formed: when the analysis of a
member access yields a node whose `op` is `TOKvar`, the node is a `VarExp` and
its `var` is not null (the constructor of `VarExp` takes the declaration), so
that line 271 does not dereference a null pointer. -/
structure FiniteGraph (F : Frontend) (sc : Scope) (keys : List String) : Prop where
  candidate : ∀ (sc1 : Scope) (e : Expression),
    ∃ t, (F.resolveProperties sc1 e).1.type = some t ∧ t.deco ∈ keys
  cast : ∀ (e : Expression) (bd : Nat),
    ∃ t, (F.castTo sc e (F.aggType bd)).type = some t ∧ t.deco ∈ keys
  varExp : ∀ (sc1 : Scope) (e : Expression) (id : Identifier),
    (F.semantic sc1 (.DotIdExp e id)).1.op = TOK.TOKvar →
      ∃ v, (F.semantic sc1 (.DotIdExp e id)).1.var = some v

/-- One call of the delegate, as seen by an observer. -/
structure Invocation where
  aliasexpr : Expression
  success : Bool
  outexpr : Option Expression
  deriving DecidableEq, Repr

/-- The delegate `dg` wrapped so that its context also records, in order, every
call made to it. -/
def logged {Ctx : Type} (dg : Delegate Ctx) : Delegate (Ctx × List Invocation) :=
  fun sc e c =>
    match dg sc e c.1 with
    | (success, e2, c1) => (success, e2, (c1, c.2 ++ [⟨e, success, e2⟩]))

/-- The property of a recursive call that the termination argument needs:
on a typed expression whose key lies in `keys`, with fewer than `fuel`
unmarked keys, the call returns and keeps the markers. -/
def CallTotal {Ctx : Type} (keys : List String) (fuel : Nat) (self : IterCall Ctx) : Prop :=
  ∀ (e1 : Expression) (ctx1 : Ctx) (ret1 : Expressions) (dt1 : StringTable) (t1 : Type_),
    e1.type = some t1 → t1.deco ∈ keys → unmarked keys dt1 < fuel →
    ∃ res dt2, self e1 ctx1 ret1 (some dt1) = .ok res ∧ res.directtypes = some dt2 ∧
      SameMarks dt1 dt2

/-- The calls `calls` account for the change from (`r0`, `ret0`) to (`r1`, `ret1`):
the flag is or-ed with every `success`, every non-null `outexpr` is appended,
in the order of the calls, and every entry is what `dg` returned on its
candidate. -/
def Accounts {Ctx : Type} (dg : Delegate Ctx) (sc : Scope) (calls : List Invocation)
    (r0 : Bool) (ret0 : Expressions) (r1 : Bool) (ret1 : Expressions) : Prop :=
  r1 = (r0 || calls.any (fun c => c.success)) ∧
  ret1 = ret0 ++ calls.filterMap (fun c => c.outexpr) ∧
  ∀ c ∈ calls, ∃ ctx1 ctx2, dg sc c.aliasexpr ctx1 = (c.success, c.outexpr, ctx2)

/-- The property of a recursive call with the logged delegate: the calls it
adds to the log account for its return value and for what it appends to `ret`. -/
def CallTraced {Ctx : Type} (dg : Delegate Ctx) (sc : Scope)
    (selfL : IterCall (Ctx × List Invocation)) : Prop :=
  ∀ (e1 : Expression) (c : Ctx × List Invocation) (ret1 : Expressions)
    (dt1 : Option StringTable) (res : IterResult (Ctx × List Invocation)),
    selfL e1 c ret1 dt1 = .ok res →
    ∃ calls, res.ctx.2 = c.2 ++ calls ∧ Accounts dg sc calls false ret1 res.r res.ret

/-- Drop the log from the result of a run with the logged delegate. -/
def IterResult.forget {Ctx : Type} (res : IterResult (Ctx × List Invocation)) : IterResult Ctx :=
  { r := res.r, ctx := res.ctx.1, ret := res.ret, directtypes := res.directtypes }

/-- Drop the log from the loop variables of a run with the logged delegate. -/
def IterState.forget {Ctx : Type} (st : IterState (Ctx × List Invocation)) : IterState Ctx :=
  { r := st.r, ctx := st.ctx.1, ret := st.ret, directtypes := st.directtypes }

/-- The recursive call `selfL` with the logged delegate simulates `self`. -/
def CallSimulates {Ctx : Type} (self : IterCall Ctx) (selfL : IterCall (Ctx × List Invocation)) :
    Prop :=
  ∀ (e1 : Expression) (c : Ctx × List Invocation) (ret1 : Expressions)
    (dt1 : Option StringTable),
    self e1 c.1 ret1 dt1 = (selfL e1 c ret1 dt1).map IterResult.forget

/-! ## An example program

```d
struct A { B b; alias b this; }            struct B { A a; alias a this; }
struct P { int x; long y; alias x this; alias y this; }
struct Q { R r; alias r this; }            struct R { int x; alias x this; }
struct M { R r; long y; alias r this; alias y this; }
class K1 { int x; alias x this; }          class K2 { long y; alias y this; }
class K : K1, K2 { }
class K3 : K1 { long y; alias y this; }
struct A3 { B3 b; C3 c; alias b this; alias c this; }
struct B3 { C3 c; alias c this; }          struct C3 { }
```
-/

namespace Example

def tX : Type_ := { ty := .Tother, deco := "i" }
def tY : Type_ := { ty := .Tother, deco := "l" }
def tA : Type_ := { ty := .Tstruct, deco := "S1A", sym := 1 }
def tB : Type_ := { ty := .Tstruct, deco := "S1B", sym := 2 }
def tP : Type_ := { ty := .Tstruct, deco := "S1P", sym := 3 }
def tQ : Type_ := { ty := .Tstruct, deco := "S1Q", sym := 4 }
def tR : Type_ := { ty := .Tstruct, deco := "S1R", sym := 5 }
def tM : Type_ := { ty := .Tstruct, deco := "S1M", sym := 6 }
def tK : Type_ := { ty := .Tclass, deco := "C1K", sym := 7 }
def tK1 : Type_ := { ty := .Tclass, deco := "C2K1", sym := 8 }
def tK2 : Type_ := { ty := .Tclass, deco := "C2K2", sym := 9 }
def tK3 : Type_ := { ty := .Tclass, deco := "C2K3", sym := 30 }
def tA3 : Type_ := { ty := .Tstruct, deco := "S2A3", sym := 31 }
def tB3 : Type_ := { ty := .Tstruct, deco := "S2B3", sym := 32 }
def tC3 : Type_ := { ty := .Tstruct, deco := "S2C3", sym := 33 }
def terror : Type_ := { ty := .Terror, deco := "_error_" }

/-- The keys of all types of the example. -/
def keys : List String :=
  ["i", "l", "S1A", "S1B", "S1P", "S1Q", "S1R", "S1M", "C1K", "C2K1", "C2K2", "C2K3",
   "S2A3", "S2B3", "S2C3", "_error_"]

/-- The type of the member named `ident`. -/
def memberType (ident : Identifier) : Type_ :=
  if ident = "b" then tB
  else if ident = "a" then tA
  else if ident = "x" then tX
  else if ident = "y" then tY
  else if ident = "r" then tR
  else if ident = "b3" then tB3
  else if ident = "c3" then tC3
  else terror

/-- The members that are alias-this symbols: 10 is `A.b`, 11 is `B.a`, 12 and
13 are `P.x` and `P.y`, 14 is `Q.r`, 15 is `R.x`, 16 and 17 are `M.r` and `M.y`,
18 is `K1.x`, 19 is `K2.y`, 20 is `K3.y`, 21 and 22 are `A3.b` and `A3.c`
(named `b3` and `c3` here), 23 is `B3.c` (named `c3`). -/
def ident (s : Dsymbol) : Identifier :=
  if s = 10 then "b"
  else if s = 11 then "a"
  else if s = 12 ∨ s = 15 ∨ s = 18 then "x"
  else if s = 13 ∨ s = 17 ∨ s = 19 ∨ s = 20 then "y"
  else if s = 14 ∨ s = 16 then "r"
  else if s = 21 then "b3"
  else if s = 22 ∨ s = 23 then "c3"
  else "?"

/-- The type of each aggregate: 1 to 6 are the structs `A`, `B`, `P`, `Q`, `R`,
`M`, 7 to 9 the classes `K`, `K1`, `K2`, 30 the class `K3`, and 31 to 33 the
structs `A3`, `B3`, `C3`. -/
def aggType (ad : Nat) : Type_ :=
  if ad = 1 then tA
  else if ad = 2 then tB
  else if ad = 3 then tP
  else if ad = 4 then tQ
  else if ad = 5 then tR
  else if ad = 6 then tM
  else if ad = 7 then tK
  else if ad = 8 then tK1
  else if ad = 9 then tK2
  else if ad = 30 then tK3
  else if ad = 31 then tA3
  else if ad = 32 then tB3
  else if ad = 33 then tC3
  else terror

/-- The error expression, of type `Type::terror`. -/
def ErrorExp : Expression := .Exp 0 .TOKother (some terror) none

/-- The front end of the example: member access yields an expression of the
type of the member, a cast yields an expression of the target type, and
property resolution leaves a typed expression alone. -/
def F : Frontend where
  toBasetype := fun t => t
  equals := fun a b => a.deco == b.deco
  nextOf := fun _ => none
  addMod := fun t _ => t
  substWildTo := fun t _ => t
  isref := fun _ => false
  toDsymbol := fun _ => none
  implicitConvTo := fun _ _ => 0
  terror := terror
  MODmutable := 0
  RECtracing := 2
  MATCHnomatch := 0
  kind := fun s =>
    if s ≤ 9 ∨ (30 ≤ s ∧ s ≤ 33) then .AggregateDeclaration else .VarDeclaration
  ident := ident
  toAlias := fun s => s
  needThis := fun _ => true
  symEquals := fun a b => a == b
  declType := fun s => some (memberType (ident s))
  hasScope := fun _ => true
  isexp := fun _ => false
  objects := fun _ => []
  aggType := aggType
  isClassDeclaration := fun ad => decide ((7 ≤ ad ∧ ad ≤ 9) ∨ ad = 30)
  baseclasses := fun ad =>
    if ad = 7 then [⟨none, 8⟩, ⟨none, 9⟩]
    else if ad = 30 then [⟨none, 8⟩]
    else []
  search := fun _ _ => none
  scopeSearch := fun _ _ => none
  resolveFuncCall := fun _ _ => none
  semantic := fun _ e =>
    match e with
    | .DotIdExp _ id => (.Exp 0 .TOKother (some (memberType id)) none, 0)
    | e => (e, 0)
  resolveProperties := fun _ e =>
    match e.type with
    | some t => if t.deco ∈ keys then (e, 0) else (ErrorExp, 1)
    | none => (ErrorExp, 1)
  overloadModMatch := fun _ _ => (none, none)
  castTo := fun _ _ t => .Exp 1 .TOKother (some t) none

/-- The alias-this arrays of the example. -/
def H : Heap where
  aliasThisSymbols := fun ad =>
    if ad = 1 then some 0
    else if ad = 2 then some 1
    else if ad = 3 then some 2
    else if ad = 4 then some 3
    else if ad = 5 then some 4
    else if ad = 6 then some 5
    else if ad = 8 then some 6
    else if ad = 9 then some 7
    else if ad = 30 then some 8
    else if ad = 31 then some 9
    else if ad = 32 then some 10
    else none
  arrays := fun a =>
    if a = 0 then [10]
    else if a = 1 then [11]
    else if a = 2 then [12, 13]
    else if a = 3 then [14]
    else if a = 4 then [15]
    else if a = 5 then [16, 17]
    else if a = 6 then [18]
    else if a = 7 then [19]
    else if a = 8 then [20]
    else if a = 9 then [21, 22]
    else if a = 10 then [23]
    else []
  next := 11

/-- An expression of the given type. -/
def exp (t : Type_) : Expression := .Exp 7 .TOKother (some t) none

/-- A delegate that never matches and never yields an expression; its context
counts the calls. -/
def dgNever : Delegate Nat := fun _ _ n => (false, none, n + 1)

/-- A delegate that matches the candidates of type `t`, and yields them; its
context counts the calls. -/
def dgOn (t : Type_) : Delegate Nat :=
  fun _ e n => if e.type = some t then (true, some e, n + 1) else (false, none, n + 1)

end Example

namespace Example

/-- The type of `enum E : K { a = null }`: its `ty` is not `Tclass`, and
`toBasetype()` of it is the class type of `K`. -/
def tE : Type_ := { ty := .Tother, deco := "E1E" }

/-- The front end of the example, extended by the enum type `E`. -/
def FE : Frontend := { F with toBasetype := fun t => if t.deco = "E1E" then tK else t }

/-- A delegate that matches every candidate and yields it; its context counts
the calls. -/
def dgAlways : Delegate Nat := fun _ e n => (true, some e, n + 1)

end Example

/-! ## `AliasThis::semantic` (lines 393-490) -/

/-- The diagnostics of `AliasThis::semantic`, named as in the specification;
the text of each message is quoted from the source. -/
inductive Diagnostic
  /-- The message "alias this can only be a member of aggregate, not %s %s" -/
  | NotAnAggregate
  /-- The message "%s is not a member of %s" -/
  | NotAMember
  /-- The message "undefined identifier %s" -/
  | UndefinedIdentifier
  /-- The message "there can be only one tuple alias this" -/
  | ConflictingTupleDelegate
  /-- The message "alias this is not reachable as %s already converts to %s" -/
  | UnreachableDelegate
  /-- The message "alias %s this tries to override another alias this with type %s" -/
  | OverridingDelegate
  deriving DecidableEq, Repr

/-- An `AliasThis` node: the identifier after `alias`. -/
structure AliasThis where
  ident : Identifier
  deriving DecidableEq, Repr

/-- Line 415 and line 423: `s->isVarDeclaration() ?
s->isVarDeclaration()->toAlias()->isTupleDeclaration() : NULL`. -/
def tupleOf (F : Frontend) (s : Dsymbol) : Option Dsymbol :=
  if F.kind s = DsymbolKind.VarDeclaration then
    if F.kind (F.toAlias s) = DsymbolKind.TupleDeclaration then some (F.toAlias s) else none
  else none

/-- Lines 443-445 and 472-475: follow an `AliasDeclaration`, then
`isDeclaration()`. -/
def declarationOf (F : Frontend) (s : Dsymbol) : Option Dsymbol :=
  let sx := if F.kind s = DsymbolKind.AliasDeclaration then F.toAlias s else s
  if (F.kind sx).isDeclaration then some sx else none

/-- Lines 417-427: the two checks of the tuple rule against element 0 of a
non-empty array. -/
def tupleCheck (F : Frontend) (aliasThisSymbols : Option (List Dsymbol)) (td : Option Dsymbol) :
    List Diagnostic :=
  match aliasThisSymbols with
  | some (first :: _) =>
    match td with
    | some td =>
      if !F.symEquals first td then [Diagnostic.ConflictingTupleDelegate] else []
    | none =>
      if (tupleOf F first).isSome then [Diagnostic.ConflictingTupleDelegate] else []
  | _ => []

/-- What a piece of `AliasThis::semantic` leaves behind: the diagnostics it has
reported, in order, and either its result or the fault that stopped it (the
diagnostics reported before a failed `assert` have been printed already). -/
abbrev Reported (α : Type) := List Diagnostic × Except Fault α

/-- Lines 470-485: the loop that compares the type `t` of the new symbol with
`d2->type` of every non-tuple declaration already in the array. -/
def overrideLoop (F : Frontend) (t : Type_) : List Dsymbol → Reported Unit
  | [] => ([], .ok ())
  | sx2 :: rest =>
    match declarationOf F sx2 with
    | some d2 =>
      if F.kind d2 ≠ DsymbolKind.TupleDeclaration then
        match F.declType d2 with
        | none => ([], .error .assertion)
        | some t2 =>
          if F.equals t2 t then
            (Diagnostic.OverridingDelegate :: (overrideLoop F t rest).1,
             (overrideLoop F t rest).2)
          else overrideLoop F t rest
      else overrideLoop F t rest
    | none => overrideLoop F t rest

/-- Lines 442-487: the checks on a symbol that is a declaration and not a
tuple. -/
def declarationChecks (F : Frontend) (ad : Nat) (s : Dsymbol)
    (aliasThisSymbols : List Dsymbol) : Reported Unit :=
  match declarationOf F s with
  | some d =>
    if F.kind d ≠ DsymbolKind.TupleDeclaration then
      match F.declType d with
      | none => ([], .error .assertion)
      | some t0 =>
        let t : Option Type_ :=
          if F.kind d = DsymbolKind.FuncDeclaration then F.nextOf t0 else some t0
        match t with
        | some t =>
          let oldatt := (F.aggType ad).att
          let tracing : Type_ := { F.aggType ad with att := oldatt ||| F.RECtracing }
          let reach : List Diagnostic :=
            if F.implicitConvTo tracing t > F.MATCHnomatch then
              [Diagnostic.UnreachableDelegate]
            else []
          (reach ++ (overrideLoop F t aliasThisSymbols).1, (overrideLoop F t aliasThisSymbols).2)
        | none => ([], .ok ())
    else ([], .ok ())
  | none => ([], .ok ())

/-- Lines 440-441: `if (!ad->aliasThisSymbols) ad->aliasThisSymbols = new
Dsymbols()`; the result is the heap and the address of the array of `ad`. -/
def ensureArray (H : Heap) (ad : Nat) : Heap × Nat :=
  match H.aliasThisSymbols ad with
  | some a => (H, a)
  | none =>
    ({ aliasThisSymbols := Function.update H.aliasThisSymbols ad (some H.next),
       arrays := Function.update H.arrays H.next [],
       next := H.next + 1 }, H.next)

/-- Line 489: `ad->aliasThisSymbols->push(s)` on the array at address `a`. -/
def pushSymbol (H : Heap) (a : Nat) (s : Dsymbol) : Heap :=
  { H with arrays := Function.update H.arrays a (H.arrays a ++ [s]) }

/-- The embedding of `AliasThis::semantic`: the diagnostics reported, in order,
and the heap afterwards. The `assert(ad->members)` of line 404 is not
modelled. -/
def AliasThis.semantic (F : Frontend) (H : Heap) (this : AliasThis) (sc : Scope) :
    Reported Heap :=
  let p := sc.parent
  if F.kind p ≠ DsymbolKind.AggregateDeclaration then
    ([Diagnostic.NotAnAggregate], .ok H)
  else
    let ad := p
    match F.search ad this.ident with
    | none =>
      match F.scopeSearch sc this.ident with
      | some _ => ([Diagnostic.NotAMember], .ok H)
      | none => ([Diagnostic.UndefinedIdentifier], .ok H)
    | some s =>
      let td := tupleOf F s
      let errs1 := tupleCheck F (H.symbols ad) td
      if (F.aggType ad).ty = TY.Tstruct ∧ (F.aggType ad).sym ≠ ad then
        let ad2 := (F.aggType ad).sym
        if F.aggType ad2 = F.terror then
          (errs1, .ok { H with aliasThisSymbols :=
                          Function.update H.aliasThisSymbols ad (H.aliasThisSymbols ad2) })
        else (errs1, .error .assertion)
      else
        let H1 := (ensureArray H ad).1
        let a := (ensureArray H ad).2
        match declarationChecks F ad s (H1.arrays a) with
        | (errs2, .error f) => (errs1 ++ errs2, .error f)
        | (errs2, .ok _) => (errs1 ++ errs2, .ok (pushSymbol H1 a s))

/-! ## An example of registrations

```d
struct S { int x; int y; int f(); long z; Tuple!(int, long) tup; int g();
           alias ... this; }
```
-/

namespace Registry

def tInt : Type_ := { ty := .Tother, deco := "i" }
def tLong : Type_ := { ty := .Tother, deco := "l" }
def tFun : Type_ := { ty := .Tfunction, deco := "FZi" }
def tTuple : Type_ := { ty := .Tother, deco := "B2il" }
def tS : Type_ := { ty := .Tstruct, deco := "S1S", sym := 40 }

/-- The symbols: 40 is the struct `S`, 41 to 45 its members `x`, `y`, `f`, `z`,
`tup`, 46 the `TupleDeclaration` behind `tup`, 47 the member `g`. -/
def ident (s : Dsymbol) : Identifier :=
  if s = 40 then "S"
  else if s = 41 then "x"
  else if s = 42 then "y"
  else if s = 43 then "f"
  else if s = 44 then "z"
  else if s = 45 ∨ s = 46 then "tup"
  else if s = 47 then "g"
  else "?"

def kind (s : Dsymbol) : DsymbolKind :=
  if s = 40 then .AggregateDeclaration
  else if s = 43 ∨ s = 47 then .FuncDeclaration
  else if s = 46 then .TupleDeclaration
  else if 41 ≤ s ∧ s ≤ 45 then .VarDeclaration
  else .Other

def declType (s : Dsymbol) : Option Type_ :=
  if s = 41 ∨ s = 42 then some tInt
  else if s = 43 ∨ s = 47 then some tFun
  else if s = 44 then some tLong
  else if s = 45 ∨ s = 46 then some tTuple
  else none

def search (ad : Nat) (id : Identifier) : Option Dsymbol :=
  if ad = 40 then
    if id = "x" then some 41
    else if id = "y" then some 42
    else if id = "f" then some 43
    else if id = "z" then some 44
    else if id = "tup" then some 45
    else if id = "g" then some 47
    else none
  else none

/-- The front end of the example. Two symbols are equal when they are the same
symbol or have the same identifier; the return type of `f` and `g` is `int`. -/
def F : Frontend :=
  { Example.F with
    kind := kind
    ident := ident
    toAlias := fun s => if s = 45 then 46 else s
    declType := declType
    nextOf := fun t => if t.deco = "FZi" then some tInt else none
    symEquals := fun a b => a == b || ident a == ident b
    search := search
    aggType := fun ad => if ad = 40 then tS else Example.terror }

/-- The scope of the members of `S`. -/
def sc : Scope := { parent := 40 }

/-- The heap before any `alias this` has been analysed. -/
def H0 : Heap := { aliasThisSymbols := fun _ => none, arrays := fun _ => [], next := 0 }

/-- The array of `S` after the run, when the run did not fault. -/
def listOfS (r : Reported Heap) : Option (Option (List Dsymbol)) :=
  r.2.toOption.map (fun H => H.symbols 40)

end Registry

/-- Successive calls of `AliasThis::semantic` in the scope `sc`, one for each
`alias ... this` declaration of the list; the run stops at the first fault. -/
def semanticAll (F : Frontend) (sc : Scope) : Heap → List AliasThis → Reported Heap
  | H, [] => ([], .ok H)
  | H, a :: rest =>
    match a.semantic F H sc with
    | (errs, .error f) => (errs, .error f)
    | (errs, .ok H1) => (errs ++ (semanticAll F sc H1 rest).1, (semanticAll F sc H1 rest).2)

/-- The resolved target type of an alias-this symbol, as lines 442-454 compute
it for the symbol being registered: the type of the declaration, and for a
function its return type. -/
def resolvedType (F : Frontend) (s : Dsymbol) : Option Type_ :=
  match declarationOf F s with
  | some d =>
    if F.kind d ≠ DsymbolKind.TupleDeclaration then
      match F.declType d with
      | some t0 => if F.kind d = DsymbolKind.FuncDeclaration then F.nextOf t0 else some t0
      | none => none
    else none
  | none => none

namespace Registry

end Registry

namespace Registry

end Registry

/-! ## `aliasThisOf` (lines 136-206) -/

/-- Lines 160-175: the return type of the function that `resolveFuncCall`
selects for the declaration `d`, or `Type::terror`; `islvalue` is set for a
`ref` function. -/
def aliasThisOfFunction (F : Frontend) (t : Type_) (d : Dsymbol) : Type_ × Bool :=
  match F.resolveFuncCall d t with
  | none => (F.terror, false)
  | some fd =>
    if fd.errors then (F.terror, false)
    else
      let fd1 : Option Type_ :=
        match F.nextOf fd.type with
        | some _ => some fd.type
        | none => if fd.functionSemantic then some fd.typeAfterSemantic else none
      match fd1 with
      | none => (F.terror, false)
      | some ftype =>
        match F.nextOf ftype with
        | none => (F.terror, false)
        | some t2 =>
          (F.substWildTo t2 (if t.mod = 0 then F.MODmutable else t.mod), F.isref ftype)

/-- Lines 189-201: the same for a template declaration `td`. -/
def aliasThisOfTemplate (F : Frontend) (t : Type_) (td : Dsymbol) :
    Except Fault (Option Type_ × Bool) :=
  if F.hasScope td then
    match F.resolveFuncCall td t with
    | none => .ok (some F.terror, false)
    | some fd =>
      if fd.errors then .ok (some F.terror, false)
      else if fd.functionSemantic then
        match F.nextOf fd.typeAfterSemantic with
        | none => .error .null
        | some t2 =>
          .ok (some (F.substWildTo t2 (if t.mod = 0 then F.MODmutable else t.mod)),
               F.isref fd.typeAfterSemantic)
      else .ok (some F.terror, false)
  else .error .assertion

/-- The embedding of `aliasThisOf`: the type returned (null when there is none)
and the value left in `*islvalue`. -/
def aliasThisOf (F : Frontend) (H : Heap) (t : Type_) (idx : Nat) :
    Except Fault (Option Type_ × Bool) :=
  match isAggregate F t with
  | none => .ok (none, false)
  | some ad =>
    match H.symbols ad with
    | none => .ok (none, false)
    | some aliasThisSymbols =>
      match aliasThisSymbols[idx]? with
      | none => .ok (none, false)
      | some s0 =>
        let s := if F.kind s0 = DsymbolKind.AliasDeclaration then F.toAlias s0 else s0
        if (F.kind s).isDeclaration ∧ F.kind s ≠ DsymbolKind.TupleDeclaration then
          match F.declType s with
          | none => .error .assertion
          | some t2 =>
            if F.kind s = DsymbolKind.VarDeclaration ∧ F.needThis s = true then
              .ok (some (F.addMod t2 t.mod), true)
            else if F.kind s = DsymbolKind.FuncDeclaration then
              .ok (some (aliasThisOfFunction F t s).1, (aliasThisOfFunction F t s).2)
            else .ok (some t2, false)
        else if F.kind s = DsymbolKind.EnumDeclaration then
          .ok (F.declType s, false)
        else if F.kind s = DsymbolKind.TemplateDeclaration then
          aliasThisOfTemplate F t s
        else .ok (none, false)

/-! ## `getAliasThisTypes` (lines 208-255) -/

/-- The arrays that `getAliasThisTypes` fills: `ret` and, when it is not null,
`islvalues`. -/
abbrev Collected := Types × Option (List Bool)

/-- The type of the recursive call of `getAliasThisTypes` inside its loops. -/
abbrev CollectCall := Type_ → Types → Option (List Bool) → Except Fault Collected

/-- Lines 225-232: whether some element of `ret` equals `a`. -/
def isDuplicate (F : Frontend) (ret : Types) (a : Type_) : Bool :=
  ret.any (fun r => F.equals r a)

/-- The loop of lines 216-242 over the indices of the alias-this symbols of
`t`. The recursive call of line 240 has two arguments: its `islvalues` is the
default of the declaration in `aliasthis.h`, a null pointer (the parameter is
tested by `if (islvalues)`), so the array of the caller is not handed on. -/
def typesLoop (F : Frontend) (H : Heap) (self : CollectCall) (t : Type_) :
    List Nat → Collected → Except Fault Collected
  | [], st => .ok st
  | i :: rest, (ret, islvalues) =>
    match aliasThisOf F H t i with
    | .error f => .error f
    | .ok (none, _) => typesLoop F H self t rest (ret, islvalues)
    | .ok (some a, islvalue) =>
      if isDuplicate F ret a then typesLoop F H self t rest (ret, islvalues)
      else
        match self a (ret ++ [a]) none with
        | .error f => .error f
        | .ok (ret1, _) =>
          typesLoop F H self t rest (ret1, islvalues.map (fun l => l ++ [islvalue]))

/-- Lines 248-251: the type of a base class entry, `b->type` or else
`b->base->type`. -/
def baseType (F : Frontend) (b : BaseClass) : Type_ :=
  match b.type with
  | some bt => bt
  | none => F.aggType b.base

/-- The loop of lines 246-253 over the base classes. -/
def basesLoop (F : Frontend) (self : CollectCall) :
    List BaseClass → Collected → Except Fault Collected
  | [], st => .ok st
  | b :: rest, (ret, islvalues) =>
    match self (baseType F b) ret islvalues with
    | .error f => .error f
    | .ok st1 => basesLoop F self rest st1

/-- Lines 211-214: the number of alias-this symbols of the aggregate of `t`,
0 when there is none. -/
def aliasThisCount (F : Frontend) (H : Heap) (t : Type_) : Nat :=
  match isAggregate F t with
  | some ad =>
    match H.symbols ad with
    | some syms => syms.length
    | none => 0
  | none => 0

/-- Line 244: the base classes of `ad ? ad->isClassDeclaration() : NULL`, none
when this is null. -/
def classBases (F : Frontend) (t : Type_) : List BaseClass :=
  match isAggregate F t with
  | some cd => if F.isClassDeclaration cd then F.baseclasses cd else []
  | none => []

/-- The embedding of `getAliasThisTypes`. -/
def getAliasThisTypes (F : Frontend) (H : Heap) :
    Nat → Type_ → Types → Option (List Bool) → Except Fault Collected
  | 0, _, _, _ => .error .fuel
  | fuel + 1, t, ret, islvalues =>
    match typesLoop F H (getAliasThisTypes F H fuel) t (List.range (aliasThisCount F H t))
        (ret, islvalues) with
    | .error f => .error f
    | .ok st1 => basesLoop F (getAliasThisTypes F H fuel) (classBases F t) st1

/-! ## Notions used in the statements about `getAliasThisTypes` -/

/-- No element of the list equals a later one (`Type::equals`, the earlier
element being the receiver, as in the test of line 227). -/
def Distinct (F : Frontend) (ret : Types) : Prop :=
  ret.Pairwise (fun a b => F.equals a b = false)

/-- The number of types of `U` that no element of `ret` equals. -/
def uncovered (F : Frontend) (U : Types) (ret : Types) : Nat :=
  U.countP (fun a => !isDuplicate F ret a)

/-- The type graph is finite and its base-class relation is well founded:
`aliasThisOf` does not fault and every type it returns lies in the list `U`,
the types of `U` equal themselves, and `rank`, bounded by `R` on `U`, decreases
from a class to each of its base classes. -/
structure FiniteTypes (F : Frontend) (H : Heap) (U : Types) (rank : Type_ → Nat) (R : Nat) :
    Prop where
  resolves : ∀ t i, ∃ oa lv, aliasThisOf F H t i = .ok (oa, lv) ∧ ∀ a, oa = some a → a ∈ U
  refl : ∀ a ∈ U, F.equals a a = true
  rankU : ∀ a ∈ U, rank a ≤ R
  bases : ∀ t, ∀ b ∈ classBases F t, rank (baseType F b) < rank t

mutual
/-- The collection of section 4.4 of the specification, as a relation between
the type, the result set before and the result set after: first the delegates
in declaration order, then the base types. -/
inductive SpecCollects (F : Frontend) (H : Heap) : Type_ → Types → Types → Prop
  | intro (t : Type_) (ret ret1 ret2 : Types) :
      SpecDelegates F H t (List.range (aliasThisCount F H t)) ret ret1 →
      SpecBases F H (classBases F t) ret1 ret2 →
      SpecCollects F H t ret ret2
/-- For each delegate: skip it if its target type is unresolved or already
present; otherwise append the type and collect from the newly found type. -/
inductive SpecDelegates (F : Frontend) (H : Heap) : Type_ → List Nat → Types → Types → Prop
  | done (t : Type_) (ret : Types) : SpecDelegates F H t [] ret ret
  | unresolved (t : Type_) (i : Nat) (rest : List Nat) (ret ret1 : Types) (lv : Bool) :
      aliasThisOf F H t i = .ok (none, lv) →
      SpecDelegates F H t rest ret ret1 →
      SpecDelegates F H t (i :: rest) ret ret1
  | present (t : Type_) (i : Nat) (rest : List Nat) (ret ret1 : Types) (a : Type_) (lv : Bool) :
      aliasThisOf F H t i = .ok (some a, lv) → isDuplicate F ret a = true →
      SpecDelegates F H t rest ret ret1 →
      SpecDelegates F H t (i :: rest) ret ret1
  | found (t : Type_) (i : Nat) (rest : List Nat) (ret ret1 ret2 : Types) (a : Type_)
      (lv : Bool) :
      aliasThisOf F H t i = .ok (some a, lv) → isDuplicate F ret a = false →
      SpecCollects F H a (ret ++ [a]) ret1 →
      SpecDelegates F H t rest ret1 ret2 →
      SpecDelegates F H t (i :: rest) ret ret2
/-- For each base type, in declaration order: collect from it. -/
inductive SpecBases (F : Frontend) (H : Heap) : List BaseClass → Types → Types → Prop
  | done (ret : Types) : SpecBases F H [] ret ret
  | step (b : BaseClass) (rest : List BaseClass) (ret ret1 ret2 : Types) :
      SpecCollects F H (baseType F b) ret ret1 →
      SpecBases F H rest ret1 ret2 →
      SpecBases F H (b :: rest) ret ret2
end

/-- What the statements need of a recursive call of `getAliasThisTypes` that
returns: `ret` is extended, stays distinct, and is collected as in the
specification. -/
def CollectSound (F : Frontend) (H : Heap) (self : CollectCall) : Prop :=
  ∀ t ret lv ret1 lv1, self t ret lv = .ok (ret1, lv1) →
    (∃ suffix, ret1 = ret ++ suffix) ∧ (Distinct F ret → Distinct F ret1) ∧
    SpecCollects F H t ret ret1

/-- What the termination argument needs of a recursive call of
`getAliasThisTypes`: it returns when the fuel exceeds the measure. -/
def CollectTotal (F : Frontend) (U : Types) (rank : Type_ → Nat) (R : Nat) (fuel : Nat)
    (self : CollectCall) : Prop :=
  ∀ t ret lv, rank t ≤ R → uncovered F U ret * (R + 1) + rank t < fuel →
    ∃ ret1 lv1, self t ret lv = .ok (ret1, lv1)

namespace Example

/-- The types that `aliasThisOf` can return in the example. -/
def U : Types := [tX, tY, tA, tB, tR, tB3, tC3, terror]

/-- A rank that decreases from the classes `K` and `K3` to their base classes. -/
def rank (t : Type_) : Nat := if t.sym = 7 ∨ t.sym = 30 then 1 else 0

end Example

/-! ## `isAliasThisTuple` (lines 308-335) -/

/-- The loop of lines 314-333 (the label `Lagain` and the `goto`); one unit of
fuel is one pass. The element 0 of the array is read without a test of its
length (line 320). -/
def tupleLoop (F : Frontend) (H : Heap) : Nat → Type_ → Except Fault (Option Dsymbol)
  | 0, _ => .error .fuel
  | fuel + 1, t =>
    match F.toDsymbol t with
    | none => .ok none
    | some s =>
      if F.kind s = DsymbolKind.AggregateDeclaration then
        match H.symbols s with
        | none => .ok none
        | some aliasThisSymbols =>
          match aliasThisSymbols[0]? with
          | none => .error .null
          | some s0 =>
            let found : Option Dsymbol :=
              match tupleOf F s0 with
              | some td => if F.isexp td then some td else none
              | none => none
            match found with
            | some td => .ok (some td)
            | none =>
              match aliasThisOf F H t 0 with
              | .error f => .error f
              | .ok (some att, _) => tupleLoop F H fuel att
              | .ok (none, _) => .ok none
      else .ok none

/-- The embedding of `isAliasThisTuple`: the tuple declaration found, or null. -/
def isAliasThisTuple (F : Frontend) (H : Heap) (fuel : Nat) (e : Expression) :
    Except Fault (Option Dsymbol) :=
  match e.type with
  | none => .ok none
  | some type => tupleLoop F H fuel (F.toBasetype type)

/-! ## `expandAliasThisTuples` (lines 337-375) -/

namespace Tuples

def tInt : Type_ := { ty := .Tother, deco := "i" }
def tLong : Type_ := { ty := .Tother, deco := "l" }
def tTup : Type_ := { ty := .Tother, deco := "B2il" }
def tT : Type_ := { ty := .Tstruct, deco := "S1T", sym := 50 }
def tW : Type_ := { ty := .Tstruct, deco := "S1W", sym := 51 }
def tV : Type_ := { ty := .Tstruct, deco := "S1V", sym := 52 }
def tCA : Type_ := { ty := .Tclass, deco := "C2CA", sym := 53 }
def tCB : Type_ := { ty := .Tclass, deco := "C2CB", sym := 54 }

/-- The symbols: 50 to 54 are the aggregates `T`, `W`, `V`, `CA`, `CB`; 60 is
`T.tup` and 61 the tuple declaration behind it, with the members 67 (`m0`) and
68 (`m1`); 62 and 63 are `W.t` and `W.n`, 64 is `V.t`, 65 is `CA.b`, 66 is
`CB.a`. -/
def kind (s : Dsymbol) : DsymbolKind :=
  if 50 ≤ s ∧ s ≤ 54 then .AggregateDeclaration
  else if s = 61 then .TupleDeclaration
  else if 60 ≤ s ∧ s ≤ 68 then .VarDeclaration
  else .Other

def declType (s : Dsymbol) : Option Type_ :=
  if s = 60 ∨ s = 61 then some tTup
  else if s = 62 ∨ s = 64 then some tT
  else if s = 63 ∨ s = 67 then some tInt
  else if s = 68 then some tLong
  else if s = 65 then some tCB
  else if s = 66 then some tCA
  else none

/-- The objects of the tuple declaration 61: the symbol expressions of `m0`
and `m1`. -/
def objects (s : Dsymbol) : List RootObject :=
  if s = 61 then
    [{ isExpression := some (.Exp 100 .TOKdsymbol none (some 67)), s := some 67 },
     { isExpression := some (.Exp 101 .TOKdsymbol none (some 68)), s := some 68 }]
  else []

/-- The front end of the example. -/
def F : Frontend :=
  { Example.F with
    kind := kind
    ident := fun _ => "m"
    toAlias := fun s => if s = 60 then 61 else s
    declType := declType
    isexp := fun s => decide (s = 61)
    objects := objects
    toDsymbol := fun t => if t.ty = TY.Tstruct ∨ t.ty = TY.Tclass then some t.sym else none }

/-- The alias-this arrays of the example. -/
def H : Heap where
  aliasThisSymbols := fun ad =>
    if ad = 50 then some 0
    else if ad = 51 then some 1
    else if ad = 52 then some 2
    else if ad = 53 then some 3
    else if ad = 54 then some 4
    else none
  arrays := fun a =>
    if a = 0 then [60]
    else if a = 1 then [62, 63]
    else if a = 2 then [64]
    else if a = 3 then [65]
    else if a = 4 then [66]
    else []
  next := 5

/-- An expression of the given type, identified by `id`. -/
def exp (id : Nat) (t : Type_) : Expression := .Exp id .TOKother (some t) none

end Tuples

namespace Registry

/-- The heap in which the array of `S` is `[f]`. -/
def Hf : Heap :=
  { aliasThisSymbols := fun ad => if ad = 40 then some 0 else none,
    arrays := fun a => if a = 0 then [43] else [],
    next := 1 }

end Registry

namespace Tuples

/-- The heap of the example in which `W` has its first delegate only. -/
def H1 : Heap := { H with arrays := fun a => if a = 1 then [62] else H.arrays a }

end Tuples

/-- The two heaps give every aggregate the same pointer state and the same
element 0 of its array. -/
def HeadsAgree (H H1 : Heap) : Prop :=
  ∀ ad, (H.symbols ad).map (fun l => l[0]?) = (H1.symbols ad).map (fun l => l[0]?)

namespace Tuples

end Tuples

namespace Example

/-- The alias-this arrays of the example when `C3` is
`struct C3 { int x; alias x this; }`: the array 11 of `C3` holds the symbol 15,
named `x`. -/
def HD : Heap :=
  { aliasThisSymbols := fun ad => if ad = 33 then some 11 else H.aliasThisSymbols ad,
    arrays := fun a => if a = 11 then [15] else H.arrays a,
    next := 12 }

end Example

namespace Example

/-- The alias-this arrays of the example when the first alias-this symbol of `P`
is the symbol 99, whose member access has the type `Type::terror` (its
identifier names no member). -/
def HErr : Heap := { H with arrays := fun a => if a = 2 then [99, 13] else H.arrays a }

/-- The front end of the example when the access to a member named `x` reports one
error and still yields an expression of the type of the member. -/
def FG : Frontend :=
  { F with
    semantic := fun _ e =>
      match e with
      | .DotIdExp _ id =>
        (.Exp 0 .TOKother (some (memberType id)) none, if id = "x" then 1 else 0)
      | e => (e, 0) }

end Example

/-- What the bound on the number of appended types needs of a recursive call of
`getAliasThisTypes` that returns: every type it appends covers one more type
of `U`. -/
def CollectBound (F : Frontend) (U : Types) (self : CollectCall) : Prop :=
  ∀ t ret lv ret1 lv1, self t ret lv = .ok (ret1, lv1) →
    uncovered F U ret1 + ret1.length ≤ uncovered F U ret + ret.length

/-- Successive calls of `AliasThis::semantic`, each `alias ... this` declaration
in its own scope (the declarations of several aggregates may be interleaved);
the run stops at the first fault. -/
def semanticSeq (F : Frontend) : Heap → List (AliasThis × Scope) → Reported Heap
  | H, [] => ([], .ok H)
  | H, (a, sc) :: rest =>
    match a.semantic F H sc with
    | (errs, .error f) => (errs, .error f)
    | (errs, .ok H1) => (errs ++ (semanticSeq F H1 rest).1, (semanticSeq F H1 rest).2)

/-- Every array that an aggregate points to has been allocated and holds at
least one symbol. -/
def ListsNonEmpty (H : Heap) : Prop :=
  ∀ ad a, H.aliasThisSymbols ad = some a → a < H.next ∧ H.arrays a ≠ []

namespace Registry

/-- The heap after `alias x this; alias z this;` in the scope of `S`. -/
def afterSeq : Heap :=
  match (semanticSeq F H0 [(⟨"x"⟩, sc), (⟨"z"⟩, sc)]).2 with
  | .ok H => H
  | .error _ => H0

end Registry

namespace Example

/-- The front end of the example when the analysis of a member access yields a
node whose `op` is `TOKvar` and whose `var` is null. -/
def FV : Frontend :=
  { F with
    semantic := fun _ e =>
      match e with
      | .DotIdExp _ _ => (.Exp 0 .TOKvar (some tX) none, 0)
      | e => (e, 0) }

end Example

/-! # Theorems -/

/-! ## Facts about `StringTable` -/

theorem lookup_cons_self {β : Type} (a : String) (b : β) (t : List (String × β)) :
    List.lookup a ((a, b) :: t) = some b := by
  simp [List.lookup]

theorem lookup_cons_of_ne {β : Type} (k a : String) (b : β) (t : List (String × β))
    (h : k ≠ a) : List.lookup k ((a, b) :: t) = List.lookup k t := by
  have : (k == a) = false := by simpa using h
  simp [List.lookup, this]

theorem StringTable.lookup_insert (t : StringTable) (k k' : String) (v : Option Expression)
    (h : t.lookup k = none) :
    (t.insert k v).lookup k' = if k' = k then some v else t.lookup k' := by
  unfold StringTable.lookup StringTable.insert at *
  induction t with
  | nil =>
    by_cases hk : k' = k
    · subst hk; simp [lookup_cons_self]
    · simp [lookup_cons_of_ne _ _ _ _ hk, hk]
  | cons p t ih =>
    obtain ⟨a, b⟩ := p
    by_cases ha : k = a
    · subst ha; rw [lookup_cons_self] at h; cases h
    · rw [lookup_cons_of_ne _ _ _ _ ha] at h
      have ih' := ih h
      by_cases hk' : k' = a
      · subst hk'
        have : ¬ k' = k := fun h => ha h.symm
        simp [lookup_cons_self, this]
      · simp only [List.cons_append, lookup_cons_of_ne _ _ _ _ hk']
        exact ih'

theorem StringTable.lookup_setValue (t : StringTable) (k k' : String) (v : Option Expression) :
    (t.setValue k v).lookup k' = if k' = k then (t.lookup k').map (fun _ => v) else t.lookup k' := by
  unfold StringTable.lookup StringTable.setValue
  induction t with
  | nil => simp [List.lookup]
  | cons p t ih =>
    obtain ⟨a, b⟩ := p
    by_cases hak : a = k
    · subst hak
      have e1 : (List.map (fun p : String × Option Expression => if p.1 = a then (p.1, v) else p)
          ((a, b) :: t)) = (a, v) :: List.map (fun p => if p.1 = a then (p.1, v) else p) t := by
        simp
      rw [e1]
      by_cases hk' : k' = a
      · subst hk'; simp [lookup_cons_self]
      · rw [lookup_cons_of_ne _ _ _ _ hk', lookup_cons_of_ne _ _ _ _ hk']; exact ih
    · have e1 : (List.map (fun p : String × Option Expression => if p.1 = k then (p.1, v) else p)
          ((a, b) :: t)) = (a, b) :: List.map (fun p => if p.1 = k then (p.1, v) else p) t := by
        simp [hak]
      rw [e1]
      by_cases hk' : k' = a
      · subst hk'; simp [lookup_cons_self, hak]
      · rw [lookup_cons_of_ne _ _ _ _ hk', lookup_cons_of_ne _ _ _ _ hk']; exact ih

theorem StringTable.isMarked_insert (t : StringTable) (k k' : String) (e : Expression)
    (h : t.lookup k = none) :
    (t.insert k (some e)).isMarked k' = (decide (k' = k) || t.isMarked k') := by
  unfold StringTable.isMarked
  rw [StringTable.lookup_insert t k k' _ h]
  by_cases hk : k' = k
  · simp [hk]
  · simp [hk]

theorem StringTable.isMarked_setValue_some (t : StringTable) (k k' : String) (e : Expression)
    (h : t.lookup k = some none) :
    (t.setValue k (some e)).isMarked k' = (decide (k' = k) || t.isMarked k') := by
  unfold StringTable.isMarked
  rw [StringTable.lookup_setValue]
  by_cases hk : k' = k
  · subst hk; simp [h]
  · simp [hk]

theorem StringTable.isMarked_setValue_none (t : StringTable) (k k' : String) :
    (t.setValue k none).isMarked k' = (!decide (k' = k) && t.isMarked k') := by
  unfold StringTable.isMarked
  rw [StringTable.lookup_setValue]
  by_cases hk : k' = k
  · subst hk; cases t.lookup k' <;> simp
  · simp [hk]

theorem SameMarks.refl (t : StringTable) : SameMarks t t := fun _ => rfl

theorem SameMarks.trans {a b c : StringTable} (h1 : SameMarks a b) (h2 : SameMarks b c) :
    SameMarks a c := fun k => (h2 k).trans (h1 k)

theorem unmarked_congr (keys : List String) {t t' : StringTable} (h : SameMarks t t') :
    unmarked keys t' = unmarked keys t := by
  unfold unmarked
  congr 1
  funext k
  rw [h k]

theorem countP_lt_of_imp {α : Type} (p q : α → Bool) (l : List α) (x : α)
    (himp : ∀ a, p a = true → q a = true) (hx : x ∈ l) (hq : q x = true) (hp : p x = false) :
    l.countP p < l.countP q := by
  induction l with
  | nil => cases hx
  | cons a l ih =>
    have hle : l.countP p ≤ l.countP q := List.countP_mono_left (fun a _ h => himp a h)
    rcases List.mem_cons.1 hx with h | h
    · subst h
      rw [List.countP_cons_of_pos _ _ hq, List.countP_cons_of_neg _ _ (by simp [hp])]
      omega
    · have := ih h
      by_cases hpa : p a = true
      · rw [List.countP_cons_of_pos _ _ hpa, List.countP_cons_of_pos _ _ (himp a hpa)]
        omega
      · rw [List.countP_cons_of_neg _ _ hpa]
        by_cases hqa : q a = true
        · rw [List.countP_cons_of_pos _ _ hqa]; omega
        · rw [List.countP_cons_of_neg _ _ hqa]; omega

/-- Marking a key of `keys` that was not marked lowers the number of unmarked keys. -/
theorem unmarked_lt_of_mark (keys : List String) (t t1 : StringTable) (key : String)
    (hmem : key ∈ keys) (hnot : t.isMarked key = false)
    (h1 : ∀ k, t1.isMarked k = (decide (k = key) || t.isMarked k)) :
    unmarked keys t1 < unmarked keys t := by
  unfold unmarked
  apply countP_lt_of_imp _ _ keys key
  · intro a ha
    rw [h1 a] at ha
    have : t.isMarked a = false := by
      cases h : t.isMarked a
      · rfl
      · simp [h] at ha
    simp [this]
  · exact hmem
  · simp [hnot]
  · simp [h1 key]

/-- What `markVisited` does to the markers. -/
theorem markVisited_spec (dt : StringTable) (type : Type_) (e : Expression) :
    (markVisited dt type e = none ∧ dt.isMarked type.deco = true) ∨
    (∃ dt1, markVisited dt type e = some dt1 ∧ dt.isMarked type.deco = false ∧
      ∀ k, dt1.isMarked k = (decide (k = type.deco) || dt.isMarked k)) := by
  unfold markVisited
  cases h : dt.lookup type.deco with
  | none =>
    right
    refine ⟨_, rfl, ?_, ?_⟩
    · simp [StringTable.isMarked, h]
    · intro k; exact StringTable.isMarked_insert dt _ k e h
  | some v =>
    cases v with
    | none =>
      right
      refine ⟨_, rfl, ?_, ?_⟩
      · simp [StringTable.isMarked, h]
      · intro k; exact StringTable.isMarked_setValue_some dt _ k e h
    | some x =>
      left
      exact ⟨rfl, by simp [StringTable.isMarked, h]⟩

/-- Inside the loop of `iterateAliasThis` the index is in range, so
`resolveAliasThis` does not fault, and what it returns is the result of its
final `resolveProperties`. -/
theorem resolveAliasThis_ok (F : Frontend) (H : Heap) (sc : Scope) (e : Expression)
    (type : Type_) (syms : List Dsymbol) (i : Nat)
    (hvar : ∀ (sc1 : Scope) (e : Expression) (id : Identifier),
      (F.semantic sc1 (.DotIdExp e id)).1.op = TOK.TOKvar →
        ∃ v, (F.semantic sc1 (.DotIdExp e id)).1.var = some v)
    (he : e.type = some type)
    (hagg : (F.toBasetype type).ty = TY.Tstruct ∨ (F.toBasetype type).ty = TY.Tclass)
    (hsyms : H.symbols (F.toBasetype type).sym = some syms) (hi : i < syms.length) :
    ∃ sc1 e0 n, resolveAliasThis F H sc e i = .ok ((F.resolveProperties sc1 e0).1, n) := by
  have hag : isAggregate F type = some (F.toBasetype type).sym := by
    unfold isAggregate
    rcases hagg with h | h
    · simp [h]
    · simp [h]
  have hget : syms[i]? = some syms[i] := List.getElem?_eq_getElem hi
  unfold resolveAliasThis
  simp only [he, hag, hsyms, hget]
  split
  · split
    · split
      · next f hb =>
        exfalso
        split at hb
        · next hop =>
          obtain ⟨v, hv⟩ := hvar sc e (F.ident syms[i]) hop
          rw [hv] at hb
          simp only at hb
          split at hb
          · split at hb <;> cases hb
          · cases hb
        · cases hb
      · exact ⟨_, _, _, rfl⟩
    · exact ⟨_, _, _, rfl⟩
  · exact ⟨_, _, _, rfl⟩

/-- On a type expression (`op` is `TOKtype`) whose member access is analysed to a
`TOKvar` node without `var`, line 271 dereferences a null pointer. -/
theorem resolveAliasThis_null_var :
    resolveAliasThis Example.FV Example.H {} (.Exp 7 .TOKtype (some Example.tP) none) 0 =
      .error .null := by
  rfl

theorem recurse_total {Ctx : Type} (keys : List String) (fuel : Nat) (self : IterCall Ctx)
    (hself : CallTotal keys fuel self) (e1 : Expression) (t1 : Type_) (st : IterState Ctx)
    (he1 : e1.type = some t1) (hk : t1.deco ∈ keys) (hlt : unmarked keys st.directtypes < fuel) :
    ∃ st1, recurse self e1 st = .ok st1 ∧ SameMarks st.directtypes st1.directtypes := by
  obtain ⟨res, dt2, hcall, hdt, hsame⟩ := hself e1 st.ctx st.ret st.directtypes t1 he1 hk hlt
  unfold recurse
  simp only [hcall]
  refine ⟨_, rfl, ?_⟩
  simpa [hdt] using hsame

theorem directLoop_total {Ctx : Type} (F : Frontend) (H : Heap) (dg : Delegate Ctx)
    (self : IterCall Ctx) (sc : Scope) (e : Expression) (gagerrors : Bool)
    (keys : List String) (fuel : Nat) (hfin : FiniteGraph F sc keys)
    (hself : CallTotal keys fuel self)
    (type : Type_) (syms : List Dsymbol) (he : e.type = some type)
    (hagg : (F.toBasetype type).ty = TY.Tstruct ∨ (F.toBasetype type).ty = TY.Tclass)
    (hsyms : H.symbols (F.toBasetype type).sym = some syms) :
    ∀ (is : List Nat) (st : IterState Ctx), (∀ i ∈ is, i < syms.length) →
      unmarked keys st.directtypes < fuel →
      ∃ st1, directLoop F H dg self sc e gagerrors is st = .ok st1 ∧
        SameMarks st.directtypes st1.directtypes := by
  intro is
  induction is with
  | nil =>
    intro st _ _
    exact ⟨st, rfl, SameMarks.refl _⟩
  | cons i rest ih =>
    intro st hin hlt
    have hrest : ∀ j ∈ rest, j < syms.length := fun j hj => hin j (List.mem_cons_of_mem _ hj)
    obtain ⟨sc1, e0, n, hres⟩ :=
      resolveAliasThis_ok F H sc e type syms i hfin.varExp he hagg hsyms
        (hin i (List.mem_cons_self _ _))
    obtain ⟨t1, ht1, hk1⟩ := hfin.candidate sc1 e0
    rw [directLoop, hres]
    simp only [ht1]
    split
    · exact ih st hrest hlt
    · split
      · exact ih st hrest hlt
      · rcases hdg : dg sc (F.resolveProperties sc1 e0).1 st.ctx with ⟨success, e2, ctx1⟩
        simp only []
        cases success with
        | true =>
          simp only [Bool.not_true, Bool.false_eq_true, if_false]
          exact ih _ hrest hlt
        | false =>
          simp only [Bool.not_false, if_true]
          obtain ⟨st2, hrec, hsame⟩ := recurse_total keys fuel self hself
            (F.resolveProperties sc1 e0).1 t1
            { r := st.r || false, ctx := ctx1,
              ret := pushNonNull st.ret e2,
              directtypes := st.directtypes } ht1 hk1 hlt
          rw [hrec]
          have hlt2 : unmarked keys st2.directtypes < fuel := by
            rw [unmarked_congr keys hsame]; exact hlt
          obtain ⟨st3, hloop, hsame3⟩ := ih st2 hrest hlt2
          exact ⟨st3, hloop, SameMarks.trans hsame hsame3⟩

theorem baseLoop_total {Ctx : Type} (F : Frontend) (self : IterCall Ctx) (sc : Scope)
    (e : Expression) (keys : List String) (fuel : Nat) (hfin : FiniteGraph F sc keys)
    (hself : CallTotal keys fuel self) :
    ∀ (bs : List BaseClass) (st : IterState Ctx), unmarked keys st.directtypes < fuel →
      ∃ st1, baseLoop F self sc e bs st = .ok st1 ∧
        SameMarks st.directtypes st1.directtypes := by
  intro bs
  induction bs with
  | nil =>
    intro st _
    exact ⟨st, rfl, SameMarks.refl _⟩
  | cons b rest ih =>
    intro st hlt
    obtain ⟨t1, ht1, hk1⟩ := hfin.cast e b.base
    obtain ⟨st2, hrec, hsame⟩ := recurse_total keys fuel self hself _ t1 st ht1 hk1 hlt
    rw [baseLoop]
    simp only [hrec]
    have hlt2 : unmarked keys st2.directtypes < fuel := by
      rw [unmarked_congr keys hsame]; exact hlt
    obtain ⟨st3, hloop, hsame3⟩ := ih st2 hlt2
    exact ⟨st3, hloop, SameMarks.trans hsame hsame3⟩

theorem loops_total {Ctx : Type} (F : Frontend) (H : Heap) (dg : Delegate Ctx)
    (self : IterCall Ctx) (sc : Scope) (e : Expression) (gagerrors : Bool)
    (keys : List String) (fuel : Nat) (hfin : FiniteGraph F sc keys)
    (hself : CallTotal keys fuel self)
    (type : Type_) (he : e.type = some type)
    (hagg : (F.toBasetype type).ty = TY.Tstruct ∨ (F.toBasetype type).ty = TY.Tclass)
    (st : IterState Ctx) (hlt : unmarked keys st.directtypes < fuel) :
    ∃ st1, loops F H dg self sc e type gagerrors st = .ok st1 ∧
      SameMarks st.directtypes st1.directtypes := by
  unfold loops
  have hdirect : ∃ st1,
      (match H.symbols (F.toBasetype type).sym with
        | some syms => directLoop F H dg self sc e gagerrors (List.range syms.length) st
        | none => .ok st) = .ok st1 ∧ SameMarks st.directtypes st1.directtypes := by
    cases hsyms : H.symbols (F.toBasetype type).sym with
    | none => exact ⟨st, rfl, SameMarks.refl _⟩
    | some syms =>
      exact directLoop_total F H dg self sc e gagerrors keys fuel hfin hself type syms he hagg
        hsyms _ st (fun i hi => List.mem_range.1 hi) hlt
  obtain ⟨st1, h1, hs1⟩ := hdirect
  simp only [h1]
  split
  · have hlt1 : unmarked keys st1.directtypes < fuel := by
      rw [unmarked_congr keys hs1]; exact hlt
    obtain ⟨st2, h2, hs2⟩ := baseLoop_total F self sc e keys fuel hfin hself _ st1 hlt1
    exact ⟨st2, h2, SameMarks.trans hs1 hs2⟩
  · exact ⟨st1, rfl, hs1⟩

/-- Termination of `iterateAliasThis` on a finite graph: with more fuel than
unmarked keys the call returns, and the table it leaves marks the same keys as
the table it was given. -/
theorem iterateAliasThis_total {Ctx : Type} (F : Frontend) (H : Heap) (dg : Delegate Ctx)
    (sc : Scope) (gagerrors : Bool) (keys : List String) (hfin : FiniteGraph F sc keys) :
    ∀ (fuel : Nat) (e : Expression) (ctx : Ctx) (ret : Expressions)
      (directtypes : Option StringTable) (type : Type_),
      e.type = some type → type.deco ∈ keys → unmarked keys (directtypes.getD []) < fuel →
      ∃ res, iterateAliasThis F H dg fuel sc e ctx ret gagerrors directtypes = .ok res ∧
        (res.directtypes = directtypes ∨
          ∃ dt2, res.directtypes = some dt2 ∧ SameMarks (directtypes.getD []) dt2) := by
  intro fuel
  induction fuel with
  | zero => intro e ctx ret directtypes type _ _ h; omega
  | succ fuel ih =>
    intro e ctx ret directtypes type he hk hlt
    have hself : CallTotal keys fuel
        (fun e1 ctx1 ret1 dt1 => iterateAliasThis F H dg fuel sc e1 ctx1 ret1 gagerrors dt1) := by
      intro e1 ctx1 ret1 dt1 t1 he1 hk1 hlt1
      obtain ⟨res, hres, hm⟩ := ih e1 ctx1 ret1 (some dt1) t1 he1 hk1 hlt1
      rcases hm with hm | ⟨dt2, hdt2, hs⟩
      · exact ⟨res, dt1, hres, hm, SameMarks.refl _⟩
      · exact ⟨res, dt2, hres, hdt2, hs⟩
    rw [iterateAliasThis]
    simp only [he]
    split
    next hagg =>
      rcases markVisited_spec (directtypes.getD []) type e with ⟨hmv, _⟩ | ⟨dt1, hmv, hnot, hmarks⟩
      · simp only [hmv]
        exact ⟨_, rfl, Or.inr ⟨_, rfl, SameMarks.refl _⟩⟩
      · simp only [hmv]
        have hlt1 : unmarked keys dt1 < fuel := by
          have := unmarked_lt_of_mark keys _ dt1 type.deco hk hnot hmarks
          omega
        obtain ⟨st2, hloops, hsame⟩ := loops_total F H dg _ sc e gagerrors keys fuel hfin hself
          type he hagg { r := false, ctx := ctx, ret := ret, directtypes := dt1 } hlt1
        simp only [hloops]
        refine ⟨_, rfl, Or.inr ⟨_, rfl, ?_⟩⟩
        intro k
        rw [StringTable.isMarked_setValue_none, hsame k, hmarks k]
        by_cases hkk : k = type.deco
        · subst hkk; simp [hnot]
        · simp [hkk]
    next hagg =>
      exact ⟨_, rfl, Or.inl rfl⟩

theorem Accounts.nil {Ctx : Type} (dg : Delegate Ctx) (sc : Scope) (r : Bool)
    (ret : Expressions) : Accounts dg sc [] r ret r ret := by
  simp [Accounts]

theorem Accounts.append {Ctx : Type} {dg : Delegate Ctx} {sc : Scope}
    {c1 c2 : List Invocation} {r0 r1 r2 : Bool} {ret0 ret1 ret2 : Expressions}
    (h1 : Accounts dg sc c1 r0 ret0 r1 ret1) (h2 : Accounts dg sc c2 r1 ret1 r2 ret2) :
    Accounts dg sc (c1 ++ c2) r0 ret0 r2 ret2 := by
  obtain ⟨ha, hb, hg1⟩ := h1
  obtain ⟨hc, hd, hg2⟩ := h2
  subst ha hb
  refine ⟨?_, ?_, ?_⟩
  · rw [hc]; simp [Bool.or_assoc]
  · rw [hd]; simp
  · intro c hc
    rcases List.mem_append.1 hc with h | h
    · exact hg1 c h
    · exact hg2 c h

theorem Accounts.single {Ctx : Type} (dg : Delegate Ctx) (sc : Scope) (e1 : Expression)
    (success : Bool) (e2 : Option Expression) (ctx1 ctx2 : Ctx)
    (hdg : dg sc e1 ctx1 = (success, e2, ctx2)) (r : Bool) (ret : Expressions) :
    Accounts dg sc [⟨e1, success, e2⟩] r ret (r || success) (pushNonNull ret e2) := by
  refine ⟨?_, ?_, ?_⟩
  · simp
  · cases e2 <;> simp [pushNonNull]
  · intro c hc
    simp only [List.mem_singleton] at hc
    subst hc
    exact ⟨ctx1, ctx2, hdg⟩

theorem recurse_traced {Ctx : Type} (dg : Delegate Ctx) (sc : Scope)
    (selfL : IterCall (Ctx × List Invocation))
    (hself : CallTraced dg sc selfL) (e1 : Expression) (st st1 : IterState (Ctx × List Invocation))
    (h : recurse selfL e1 st = .ok st1) :
    ∃ calls, st1.ctx.2 = st.ctx.2 ++ calls ∧ Accounts dg sc calls st.r st.ret st1.r st1.ret := by
  unfold recurse at h
  cases hcall : selfL e1 st.ctx st.ret (some st.directtypes) with
  | error f => rw [hcall] at h; cases h
  | ok res =>
    rw [hcall] at h
    simp only [Except.ok.injEq] at h
    subst h
    obtain ⟨calls, hlog, hr, hret⟩ := hself _ _ _ _ _ hcall
    refine ⟨calls, hlog, ?_, hret⟩
    show (res.r || st.r) = _
    simp only [hr, Bool.false_or]
    exact Bool.or_comm _ _

theorem directLoop_traced {Ctx : Type} (F : Frontend) (H : Heap) (dg : Delegate Ctx)
    (selfL : IterCall (Ctx × List Invocation)) (sc : Scope) (e : Expression) (gagerrors : Bool)
    (hself : CallTraced dg sc selfL) :
    ∀ (is : List Nat) (st st1 : IterState (Ctx × List Invocation)),
      directLoop F H (logged dg) selfL sc e gagerrors is st = .ok st1 →
      ∃ calls, st1.ctx.2 = st.ctx.2 ++ calls ∧ Accounts dg sc calls st.r st.ret st1.r st1.ret := by
  intro is
  induction is with
  | nil =>
    intro st st1 h
    simp only [directLoop, Except.ok.injEq] at h
    subst h
    exact ⟨[], by simp, Accounts.nil dg sc _ _⟩
  | cons i rest ih =>
    intro st st1 h
    rw [directLoop] at h
    split at h
    · cases h
    · next e1 errors hres =>
      split at h
      · exact ih _ _ h
      · split at h
        · cases h
        · next t1 ht1 =>
          split at h
          · exact ih _ _ h
          · rcases hdg : dg sc e1 st.ctx.1 with ⟨success, e2, ctx1⟩
            have hl : logged dg sc e1 st.ctx =
                (success, e2, (ctx1, st.ctx.2 ++ [⟨e1, success, e2⟩])) := by
              simp [logged, hdg]
            rw [hl] at h
            simp only [] at h
            have hone := Accounts.single dg sc e1 success e2 st.ctx.1 ctx1 hdg st.r st.ret
            cases success with
            | true =>
              simp only [Bool.not_true, Bool.false_eq_true, if_false] at h
              obtain ⟨calls, hlog, hacc⟩ := ih _ _ h
              refine ⟨⟨e1, true, e2⟩ :: calls, ?_, ?_⟩
              · simp [hlog]
              · exact Accounts.append hone hacc
            | false =>
              simp only [Bool.not_false, if_true] at h
              split at h
              · cases h
              · next st2 hrec =>
                obtain ⟨calls1, hlog1, hacc1⟩ := recurse_traced dg sc selfL hself _ _ _ hrec
                obtain ⟨calls2, hlog2, hacc2⟩ := ih _ _ h
                refine ⟨⟨e1, false, e2⟩ :: (calls1 ++ calls2), ?_, ?_⟩
                · simp [hlog2, hlog1]
                · exact Accounts.append hone (Accounts.append hacc1 hacc2)

theorem baseLoop_traced {Ctx : Type} (F : Frontend) (dg : Delegate Ctx)
    (selfL : IterCall (Ctx × List Invocation)) (sc : Scope) (e : Expression)
    (hself : CallTraced dg sc selfL) :
    ∀ (bs : List BaseClass) (st st1 : IterState (Ctx × List Invocation)),
      baseLoop F selfL sc e bs st = .ok st1 →
      ∃ calls, st1.ctx.2 = st.ctx.2 ++ calls ∧ Accounts dg sc calls st.r st.ret st1.r st1.ret := by
  intro bs
  induction bs with
  | nil =>
    intro st st1 h
    simp only [baseLoop, Except.ok.injEq] at h
    subst h
    exact ⟨[], by simp, Accounts.nil dg sc _ _⟩
  | cons b rest ih =>
    intro st st1 h
    rw [baseLoop] at h
    split at h
    · cases h
    · next st2 hrec =>
      obtain ⟨calls1, hlog1, hacc1⟩ := recurse_traced dg sc selfL hself _ _ _ hrec
      obtain ⟨calls2, hlog2, hacc2⟩ := ih _ _ h
      refine ⟨calls1 ++ calls2, ?_, Accounts.append hacc1 hacc2⟩
      simp [hlog2, hlog1]

theorem loops_traced {Ctx : Type} (F : Frontend) (H : Heap) (dg : Delegate Ctx)
    (selfL : IterCall (Ctx × List Invocation)) (sc : Scope) (e : Expression) (type : Type_)
    (gagerrors : Bool) (hself : CallTraced dg sc selfL)
    (st st1 : IterState (Ctx × List Invocation))
    (h : loops F H (logged dg) selfL sc e type gagerrors st = .ok st1) :
    ∃ calls, st1.ctx.2 = st.ctx.2 ++ calls ∧ Accounts dg sc calls st.r st.ret st1.r st1.ret := by
  unfold loops at h
  simp only [] at h
  split at h
  · cases h
  · next stm hdirect =>
    have h1 : ∃ calls, stm.ctx.2 = st.ctx.2 ++ calls ∧ Accounts dg sc calls st.r st.ret stm.r stm.ret := by
      split at hdirect
      · exact directLoop_traced F H dg selfL sc e gagerrors hself _ _ _ hdirect
      · simp only [Except.ok.injEq] at hdirect
        subst hdirect
        exact ⟨[], by simp, Accounts.nil dg sc _ _⟩
    obtain ⟨calls1, hlog1, hacc1⟩ := h1
    split at h
    · obtain ⟨calls2, hlog2, hacc2⟩ := baseLoop_traced F dg selfL sc e hself _ _ _ h
      refine ⟨calls1 ++ calls2, ?_, Accounts.append hacc1 hacc2⟩
      simp [hlog2, hlog1]
    · simp only [Except.ok.injEq] at h
      subst h
      exact ⟨calls1, hlog1, hacc1⟩

/-- The calls that a run of `iterateAliasThis` with the logged delegate adds to
the log account for its return value and for what it appends to `ret`. -/
theorem iterateAliasThis_traced {Ctx : Type} (F : Frontend) (H : Heap) (dg : Delegate Ctx)
    (sc : Scope) (gagerrors : Bool) :
    ∀ (fuel : Nat) (e : Expression) (c : Ctx × List Invocation) (ret : Expressions)
      (directtypes : Option StringTable) (res : IterResult (Ctx × List Invocation)),
      iterateAliasThis F H (logged dg) fuel sc e c ret gagerrors directtypes = .ok res →
      ∃ calls, res.ctx.2 = c.2 ++ calls ∧ Accounts dg sc calls false ret res.r res.ret := by
  intro fuel
  induction fuel with
  | zero => intro e c ret directtypes res h; simp [iterateAliasThis] at h
  | succ fuel ih =>
    intro e c ret directtypes res h
    have hself : CallTraced dg sc (fun e1 ctx1 ret1 dt1 =>
        iterateAliasThis F H (logged dg) fuel sc e1 ctx1 ret1 gagerrors dt1) := by
      intro e1 c1 ret1 dt1 res1 h1
      exact ih e1 c1 ret1 dt1 res1 h1
    rw [iterateAliasThis] at h
    split at h
    · cases h
    · next type he =>
      split at h
      · dsimp only at h
        split at h
        · simp only [Except.ok.injEq] at h
          subst h
          exact ⟨[], by simp, Accounts.nil dg sc _ _⟩
        · next dt1 hmv =>
          split at h
          · cases h
          · next st2 hloops =>
            simp only [Except.ok.injEq] at h
            subst h
            exact loops_traced F H dg _ sc e type gagerrors hself _ _ hloops
      · simp only [Except.ok.injEq] at h
        subst h
        exact ⟨[], by simp, Accounts.nil dg sc _ _⟩

theorem recurse_simulates {Ctx : Type} (self : IterCall Ctx)
    (selfL : IterCall (Ctx × List Invocation)) (hsim : CallSimulates self selfL)
    (e1 : Expression) (st : IterState (Ctx × List Invocation)) :
    recurse self e1 st.forget = (recurse selfL e1 st).map IterState.forget := by
  unfold recurse
  have := hsim e1 st.ctx st.ret (some st.directtypes)
  simp only [IterState.forget]
  rw [this]
  cases selfL e1 st.ctx st.ret (some st.directtypes) with
  | error f => rfl
  | ok res => rfl

theorem directLoop_simulates {Ctx : Type} (F : Frontend) (H : Heap) (dg : Delegate Ctx)
    (self : IterCall Ctx) (selfL : IterCall (Ctx × List Invocation)) (sc : Scope)
    (e : Expression) (gagerrors : Bool) (hsim : CallSimulates self selfL) :
    ∀ (is : List Nat) (st : IterState (Ctx × List Invocation)),
      directLoop F H dg self sc e gagerrors is st.forget =
        (directLoop F H (logged dg) selfL sc e gagerrors is st).map IterState.forget := by
  intro is
  induction is with
  | nil => intro st; rfl
  | cons i rest ih =>
    intro st
    rw [directLoop, directLoop]
    cases hres : resolveAliasThis F H sc e i with
    | error f => rfl
    | ok p =>
      obtain ⟨e1, errors⟩ := p
      simp only []
      split
      · exact ih st
      · cases ht : e1.type with
        | none => rfl
        | some t1 =>
          simp only []
          split
          · exact ih st
          · rcases hdg : dg sc e1 st.ctx.1 with ⟨success, e2, ctx1⟩
            have hl : logged dg sc e1 st.ctx =
                (success, e2, (ctx1, st.ctx.2 ++ [⟨e1, success, e2⟩])) := by
              simp [logged, hdg]
            have hf : dg sc e1 st.forget.ctx = (success, e2, ctx1) := hdg
            rw [hl, hf]
            simp only []
            cases success with
            | true =>
              simp only [Bool.not_true, Bool.false_eq_true, if_false]
              exact ih { r := st.r || true, ctx := (ctx1, st.ctx.2 ++ [⟨e1, true, e2⟩]),
                         ret := pushNonNull st.ret e2, directtypes := st.directtypes }
            | false =>
              simp only [Bool.not_false, if_true]
              have hr := recurse_simulates self selfL hsim e1
                { r := st.r || false, ctx := (ctx1, st.ctx.2 ++ [⟨e1, false, e2⟩]),
                  ret := pushNonNull st.ret e2, directtypes := st.directtypes }
              simp only [IterState.forget] at hr
              simp only [IterState.forget]
              rw [hr]
              cases recurse selfL e1
                { r := st.r || false, ctx := (ctx1, st.ctx.2 ++ [⟨e1, false, e2⟩]),
                  ret := pushNonNull st.ret e2, directtypes := st.directtypes } with
              | error f => rfl
              | ok st2 => exact ih st2

theorem baseLoop_simulates {Ctx : Type} (F : Frontend)
    (self : IterCall Ctx) (selfL : IterCall (Ctx × List Invocation)) (sc : Scope)
    (e : Expression) (hsim : CallSimulates self selfL) :
    ∀ (bs : List BaseClass) (st : IterState (Ctx × List Invocation)),
      baseLoop F self sc e bs st.forget =
        (baseLoop F selfL sc e bs st).map IterState.forget := by
  intro bs
  induction bs with
  | nil => intro st; rfl
  | cons b rest ih =>
    intro st
    rw [baseLoop, baseLoop]
    rw [recurse_simulates self selfL hsim]
    cases recurse selfL (F.castTo sc e (F.aggType b.base)) st with
    | error f => rfl
    | ok st2 => exact ih st2

theorem loops_simulates {Ctx : Type} (F : Frontend) (H : Heap) (dg : Delegate Ctx)
    (self : IterCall Ctx) (selfL : IterCall (Ctx × List Invocation)) (sc : Scope)
    (e : Expression) (type : Type_) (gagerrors : Bool) (hsim : CallSimulates self selfL)
    (st : IterState (Ctx × List Invocation)) :
    loops F H dg self sc e type gagerrors st.forget =
      (loops F H (logged dg) selfL sc e type gagerrors st).map IterState.forget := by
  unfold loops
  simp only []
  have hd : (match H.symbols (F.toBasetype type).sym with
      | some syms => directLoop F H dg self sc e gagerrors (List.range syms.length) st.forget
      | none => Except.ok st.forget) =
      (match H.symbols (F.toBasetype type).sym with
      | some syms => directLoop F H (logged dg) selfL sc e gagerrors (List.range syms.length) st
      | none => Except.ok st).map IterState.forget := by
    cases H.symbols (F.toBasetype type).sym with
    | none => rfl
    | some syms => exact directLoop_simulates F H dg self selfL sc e gagerrors hsim _ st
  rw [hd]
  cases (match H.symbols (F.toBasetype type).sym with
      | some syms => directLoop F H (logged dg) selfL sc e gagerrors (List.range syms.length) st
      | none => Except.ok st) with
  | error f => rfl
  | ok st1 =>
    simp only [Except.map]
    split
    · exact baseLoop_simulates F self selfL sc e hsim _ st1
    · rfl

/-- Logging the calls of the delegate does not change what `iterateAliasThis`
computes. -/
theorem iterateAliasThis_simulates {Ctx : Type} (F : Frontend) (H : Heap) (dg : Delegate Ctx)
    (sc : Scope) (gagerrors : Bool) :
    ∀ (fuel : Nat) (e : Expression) (c : Ctx × List Invocation) (ret : Expressions)
      (directtypes : Option StringTable),
      iterateAliasThis F H dg fuel sc e c.1 ret gagerrors directtypes =
        (iterateAliasThis F H (logged dg) fuel sc e c ret gagerrors directtypes).map
          IterResult.forget := by
  intro fuel
  induction fuel with
  | zero => intro e c ret directtypes; rfl
  | succ fuel ih =>
    intro e c ret directtypes
    have hsim : CallSimulates
        (fun e1 ctx1 ret1 dt1 => iterateAliasThis F H dg fuel sc e1 ctx1 ret1 gagerrors dt1)
        (fun e1 ctx1 ret1 dt1 =>
          iterateAliasThis F H (logged dg) fuel sc e1 ctx1 ret1 gagerrors dt1) := by
      intro e1 c1 ret1 dt1
      exact ih e1 c1 ret1 dt1
    rw [iterateAliasThis, iterateAliasThis]
    cases he : e.type with
    | none => rfl
    | some type =>
      simp only []
      split
      · cases hmv : markVisited (directtypes.getD []) type e with
        | none => rfl
        | some dt1 =>
          simp only []
          have hl := loops_simulates F H dg _ _ sc e type gagerrors hsim
            { r := false, ctx := c, ret := ret, directtypes := dt1 }
          simp only [IterState.forget] at hl
          rw [hl]
          cases loops F H (logged dg)
            (fun e1 ctx1 ret1 dt1 =>
              iterateAliasThis F H (logged dg) fuel sc e1 ctx1 ret1 gagerrors dt1)
            sc e type gagerrors { r := false, ctx := c, ret := ret, directtypes := dt1 } with
          | error f => rfl
          | ok st2 => rfl
      · rfl

theorem Example.finite (sc : Scope) : FiniteGraph Example.F sc Example.keys := by
  constructor
  · intro sc1 e
    show ∃ t, (match e.type with
      | some t => if t.deco ∈ Example.keys then (e, 0) else (Example.ErrorExp, 1)
      | none => (Example.ErrorExp, 1)).1.type = some t ∧ t.deco ∈ Example.keys
    cases he : e.type with
    | none => exact ⟨Example.terror, rfl, by decide⟩
    | some t =>
      by_cases hk : t.deco ∈ Example.keys
      · exact ⟨t, by simp [hk, he], hk⟩
      · exact ⟨Example.terror, by simp [hk]; rfl, by decide⟩
  · intro e bd
    refine ⟨Example.aggType bd, rfl, ?_⟩
    by_cases hbd : bd ≤ 33
    · interval_cases bd <;> decide
    · have hterror : Example.aggType bd = Example.terror := by
        unfold Example.aggType
        iterate 13 rw [if_neg (by omega)]
      rw [hterror]
      decide
  · intro sc1 e id h
    have hop : (Example.F.semantic sc1 (.DotIdExp e id)).1.op = TOK.TOKother := rfl
    rw [hop] at h
    cases h

theorem unmarked_le (keys : List String) (t : StringTable) : unmarked keys t ≤ keys.length :=
  List.countP_le_length _

/-- C1. Cycle safety of `iterateAliasThis`: on every finite delegation graph
(cycles are allowed) and for every delegate, a call with a null `directtypes`
returns as soon as the fuel exceeds the number of keys; and if the delegate
never returns true and never yields an expression, the call returns false and
leaves `ret` as it was (empty when it was empty). -/
theorem iterateAliasThis_cycle_safe {Ctx : Type} (F : Frontend) (H : Heap) (dg : Delegate Ctx)
    (sc : Scope) (gagerrors : Bool) (keys : List String) (hfin : FiniteGraph F sc keys)
    (e : Expression) (ctx : Ctx) (ret : Expressions) (type : Type_) (he : e.type = some type)
    (hk : type.deco ∈ keys) (fuel : Nat) (hfuel : keys.length < fuel) :
    ∃ res, iterateAliasThis F H dg fuel sc e ctx ret gagerrors none = .ok res ∧
      ((∀ e1 c1, (dg sc e1 c1).1 = false ∧ (dg sc e1 c1).2.1 = none) →
        res.r = false ∧ res.ret = ret) := by
  have hlt : unmarked keys ((none : Option StringTable).getD []) < fuel :=
    lt_of_le_of_lt (unmarked_le keys _) hfuel
  obtain ⟨res, hres, _⟩ :=
    iterateAliasThis_total F H dg sc gagerrors keys hfin fuel e ctx ret none type he hk hlt
  refine ⟨res, hres, ?_⟩
  intro hnever
  have hsim := iterateAliasThis_simulates F H dg sc gagerrors fuel e (ctx, []) ret none
  rw [hres] at hsim
  cases hL : iterateAliasThis F H (logged dg) fuel sc e (ctx, []) ret gagerrors none with
  | error f => rw [hL] at hsim; cases hsim
  | ok resL =>
    rw [hL] at hsim
    simp only [Except.map, Except.ok.injEq] at hsim
    obtain ⟨calls, _, hr, hret, hgen⟩ :=
      iterateAliasThis_traced F H dg sc gagerrors fuel e (ctx, []) ret none resL hL
    have hall : ∀ c ∈ calls, c.success = false ∧ c.outexpr = none := by
      intro c hc
      obtain ⟨ctx1, ctx2, hdg⟩ := hgen c hc
      have := hnever c.aliasexpr ctx1
      rw [hdg] at this
      exact this
    have hany : calls.any (fun c => c.success) = false := by
      rw [List.any_eq_false]
      intro c hc
      simp [(hall c hc).1]
    have hfm : calls.filterMap (fun c => c.outexpr) = [] := by
      rw [List.filterMap_eq_nil_iff]
      intro c hc
      exact (hall c hc).2
    rw [hsim]
    constructor
    · show resL.r = false
      rw [hr, hany]; rfl
    · show resL.ret = ret
      rw [hret, hfm]; simp

/-- An instance of C1: the cycle `A` to `B` to `A` of the example, with a delegate
that never matches. -/
theorem iterateAliasThis_cycle_safe_witness :
    ∃ res, iterateAliasThis Example.F Example.H Example.dgNever 20 {} (Example.exp Example.tA)
        0 [] false none = .ok res ∧
      ((∀ e1 c1, (Example.dgNever {} e1 c1).1 = false ∧ (Example.dgNever {} e1 c1).2.1 = none) →
        res.r = false ∧ res.ret = []) :=
  iterateAliasThis_cycle_safe Example.F Example.H Example.dgNever {} false Example.keys
    (Example.finite {}) (Example.exp Example.tA) 0 [] Example.tA rfl (by decide) 20 (by decide)

/-- C2. For every call of `iterateAliasThis` that the fuel lets return (any
initial `ret` and any table `directtypes`), let `calls` be the calls of the
delegate made during the traversal, in order, as recorded by the logging
wrapper `logged`. Then the call returns true exactly when one of these calls
returned true, and `ret` on return is `ret` on entry followed by the non-null
`outexpr` of these calls, in order. -/
theorem iterateAliasThis_matched_iff_outputs {Ctx : Type} (F : Frontend) (H : Heap)
    (dg : Delegate Ctx) (sc : Scope) (gagerrors : Bool) (keys : List String)
    (hfin : FiniteGraph F sc keys) (e : Expression) (ctx : Ctx) (ret : Expressions)
    (directtypes : Option StringTable) (type : Type_) (he : e.type = some type)
    (hk : type.deco ∈ keys) (fuel : Nat) (hfuel : unmarked keys (directtypes.getD []) < fuel) :
    ∃ res calls, iterateAliasThis F H dg fuel sc e ctx ret gagerrors directtypes = .ok res ∧
      (iterateAliasThis F H (logged dg) fuel sc e (ctx, []) ret gagerrors directtypes).map
        (fun resL => resL.ctx.2) = .ok calls ∧
      (∀ c ∈ calls, ∃ ctx1 ctx2, dg sc c.aliasexpr ctx1 = (c.success, c.outexpr, ctx2)) ∧
      (res.r = true ↔ ∃ c ∈ calls, c.success = true) ∧
      res.ret = ret ++ calls.filterMap (fun c => c.outexpr) := by
  obtain ⟨res, hres, _⟩ :=
    iterateAliasThis_total F H dg sc gagerrors keys hfin fuel e ctx ret directtypes type he hk
      hfuel
  have hsim := iterateAliasThis_simulates F H dg sc gagerrors fuel e (ctx, []) ret directtypes
  rw [hres] at hsim
  cases hL : iterateAliasThis F H (logged dg) fuel sc e (ctx, []) ret gagerrors directtypes with
  | error f => rw [hL] at hsim; cases hsim
  | ok resL =>
    rw [hL] at hsim
    simp only [Except.map, Except.ok.injEq] at hsim
    obtain ⟨calls, hlog, hr, hret, hgen⟩ :=
      iterateAliasThis_traced F H dg sc gagerrors fuel e (ctx, []) ret directtypes resL hL
    refine ⟨res, calls, hres, ?_, hgen, ?_, ?_⟩
    · simp only [Except.map, hlog, List.nil_append]
    · rw [hsim]
      show resL.r = true ↔ _
      rw [hr]
      simp
    · rw [hsim]
      exact hret

/-- An instance of C2: the struct `M` of the example, with a delegate that
accepts `long`. -/
theorem iterateAliasThis_matched_iff_outputs_witness :
    ∃ res calls, iterateAliasThis Example.F Example.H (Example.dgOn Example.tY) 20 {}
        (Example.exp Example.tM) 0 [] true none = .ok res ∧
      (iterateAliasThis Example.F Example.H (logged (Example.dgOn Example.tY)) 20 {}
        (Example.exp Example.tM) (0, []) [] true none).map (fun resL => resL.ctx.2) = .ok calls ∧
      (∀ c ∈ calls, ∃ ctx1 ctx2,
        Example.dgOn Example.tY {} c.aliasexpr ctx1 = (c.success, c.outexpr, ctx2)) ∧
      (res.r = true ↔ ∃ c ∈ calls, c.success = true) ∧
      res.ret = [] ++ calls.filterMap (fun c => c.outexpr) :=
  iterateAliasThis_matched_iff_outputs Example.F Example.H (Example.dgOn Example.tY) {} true
    Example.keys (Example.finite {}) (Example.exp Example.tM) 0 [] none Example.tM rfl
    (by decide) 20 (by decide)

/-- A call of `iterateAliasThis` on an expression whose type is not a struct or
class returns false at once and changes nothing (lines 61-64). -/
theorem iterateAliasThis_nonaggregate {Ctx : Type} (F : Frontend) (H : Heap) (dg : Delegate Ctx)
    (fuel : Nat) (sc : Scope) (e : Expression) (ctx : Ctx) (ret : Expressions) (gagerrors : Bool)
    (directtypes : Option StringTable) (t : Type_) (he : e.type = some t)
    (h1 : (F.toBasetype t).ty ≠ TY.Tstruct) (h2 : (F.toBasetype t).ty ≠ TY.Tclass) :
    iterateAliasThis F H dg (fuel + 1) sc e ctx ret gagerrors directtypes =
      .ok { r := false, ctx := ctx, ret := ret, directtypes := directtypes } := by
  rw [iterateAliasThis]
  simp [he, h1, h2]

/-- The run of `iterateAliasThis` on an aggregate with two alias-this symbols
whose candidates are not aggregates, when the delegate rejects the first
candidate and accepts the second. -/
theorem iterateAliasThis_two_delegates {Ctx : Type} (F : Frontend) (H : Heap) (dg : Delegate Ctx)
    (sc : Scope) (e : Expression) (ctx ctx1 ctx2 : Ctx) (ret : Expressions) (gagerrors : Bool)
    (type tx ty : Type_) (sx sy : Dsymbol) (ex ey out : Expression) (nx ny : Nat) (fuel : Nat)
    (he : e.type = some type)
    (hagg : (F.toBasetype type).ty = TY.Tstruct ∨ (F.toBasetype type).ty = TY.Tclass)
    (hbases : type.ty = TY.Tclass → F.baseclasses type.sym = [])
    (hsyms : H.symbols (F.toBasetype type).sym = some [sx, sy])
    (hx : resolveAliasThis F H sc e 0 = .ok (ex, nx))
    (hy : resolveAliasThis F H sc e 1 = .ok (ey, ny))
    (hgx : (gagerrors && decide (nx ≠ 0)) = false) (hgy : (gagerrors && decide (ny ≠ 0)) = false)
    (hex : ex.type = some tx) (hey : ey.type = some ty)
    (hxe : tx.ty ≠ TY.Terror) (hye : ty.ty ≠ TY.Terror)
    (hxs : (F.toBasetype tx).ty ≠ TY.Tstruct) (hxc : (F.toBasetype tx).ty ≠ TY.Tclass)
    (hdx : dg sc ex ctx = (false, none, ctx1))
    (hdy : dg sc ey ctx1 = (true, some out, ctx2)) :
    iterateAliasThis F H dg (fuel + 2) sc e ctx ret gagerrors none =
      .ok { r := true, ctx := ctx2, ret := ret ++ [out],
            directtypes := some [(type.deco, none)] } := by
  have hrec := iterateAliasThis_nonaggregate F H dg fuel sc ex ctx1 ret gagerrors
    (some [(type.deco, some e)]) tx hex hxs hxc
  have hloop : loops F H dg
      (fun e1 ctx1 ret1 dt1 => iterateAliasThis F H dg (fuel + 1) sc e1 ctx1 ret1 gagerrors dt1)
      sc e type gagerrors
      { r := false, ctx := ctx, ret := ret, directtypes := [(type.deco, some e)] } =
      .ok { r := true, ctx := ctx2, ret := ret ++ [out],
            directtypes := [(type.deco, some e)] } := by
    unfold loops
    simp only [hsyms]
    have hrange : List.range [sx, sy].length = [0, 1] := rfl
    rw [hrange]
    simp only [directLoop, hx, hy, hgx, hgy, hex, hey, hxe, hye, hdx, hdy, recurse, hrec,
      pushNonNull, Bool.false_eq_true, if_false, Bool.not_false, Bool.not_true, if_true,
      Bool.or_false, Bool.or_true, Option.getD_some]
    by_cases hc : type.ty = TY.Tclass
    · simp [hc, hbases hc, baseLoop]
    · simp [hc]
  rw [iterateAliasThis]
  simp only [he, hagg, if_true]
  have hmv : markVisited ((none : Option StringTable).getD []) type e
      = some [(type.deco, some e)] := by
    simp [markVisited, StringTable.lookup, StringTable.insert, List.lookup]
  simp only [hmv, hloop]
  simp [StringTable.setValue]

/-- One step of the loop of lines 90-116 after a match: when the loop reaches
the index `i`, its candidate `e1` is kept, and the delegate returns true on
it, the loop goes on with the remaining indices `rest` from the state that the
call of the delegate left (`r` true, the `outexpr` pushed, the table
`directtypes` untouched), whatever the recursive call `self` is. -/
theorem directLoop_no_recursion_after_match {Ctx : Type} (F : Frontend) (H : Heap)
    (dg : Delegate Ctx) (self : IterCall Ctx) (sc : Scope) (e : Expression) (gagerrors : Bool)
    (i : Nat) (rest : List Nat) (st : IterState Ctx) (e1 : Expression) (errors : Nat)
    (t1 : Type_) (e2 : Option Expression) (ctx1 : Ctx)
    (hres : resolveAliasThis F H sc e i = .ok (e1, errors))
    (hgag : (gagerrors && decide (errors ≠ 0)) = false)
    (ht1 : e1.type = some t1) (hne : t1.ty ≠ TY.Terror)
    (hdg : dg sc e1 st.ctx = (true, e2, ctx1)) :
    directLoop F H dg self sc e gagerrors (i :: rest) st =
      directLoop F H dg self sc e gagerrors rest
        { r := true, ctx := ctx1, ret := pushNonNull st.ret e2,
          directtypes := st.directtypes } := by
  rw [directLoop]
  simp only [hres, hgag, ht1, hne, hdg, Bool.false_eq_true, if_false, Bool.not_true,
    Bool.or_true]

/-- The code at the inputs of C5. With `struct M { R r; long y; alias r this;
alias y this; }`, `struct R { int x; alias x this; }` and a delegate that
accepts only `long`, the delegate returns true for the direct alias `y`, yet
`iterateAliasThis` has been applied recursively to the direct alias `r`: the
delegate is called on `r.x`. With `class K3 : K1 { long y; alias y this; }` and
`class K1 { int x; alias x this; }` the delegate returns true for the direct
alias `y`, yet the base class `K1` is searched: the delegate is called on the
`x` of the cast to `K1`. -/
theorem iterateAliasThis_recurses_despite_direct_match :
    (iterateAliasThis Example.F Example.H (logged (Example.dgOn Example.tY)) 20 {}
        (Example.exp Example.tM) (0, []) [] false none).map (fun resL => (resL.r, resL.ctx.2)) =
      .ok (true,
        [⟨.Exp 0 .TOKother (some Example.tR) none, false, none⟩,
         ⟨.Exp 0 .TOKother (some Example.tX) none, false, none⟩,
         ⟨.Exp 0 .TOKother (some Example.tY) none, true,
          some (.Exp 0 .TOKother (some Example.tY) none)⟩]) ∧
    (iterateAliasThis Example.F Example.H (logged (Example.dgOn Example.tY)) 20 {}
        (Example.exp Example.tK3) (0, []) [] false none).map (fun resL => (resL.r, resL.ctx.2)) =
      .ok (true,
        [⟨.Exp 0 .TOKother (some Example.tY) none, true,
          some (.Exp 0 .TOKother (some Example.tY) none)⟩,
         ⟨.Exp 0 .TOKother (some Example.tX) none, false, none⟩]) := by
  constructor <;> rfl

/-- The search of the base classes of a class without alias-this symbols, when
the type of `e` is itself the class type (`e->type->ty == Tclass`, the test of
line 119) and its key is not marked: the call is the left-to-right fold, over
the base classes in declaration order, of the recursive call on the cast of `e`
to the type of the base class, with the table, the context and `ret` handed
from one base class to the next, and the flags or-ed; at the end the key of `e`
is cleared. -/
theorem iterateAliasThis_class_bases {Ctx : Type} (F : Frontend) (H : Heap) (dg : Delegate Ctx)
    (fuel : Nat) (sc : Scope) (e : Expression) (ctx : Ctx) (ret : Expressions) (gagerrors : Bool)
    (directtypes : Option StringTable) (type : Type_) (dt1 : StringTable)
    (he : e.type = some type) (hclass : type.ty = TY.Tclass)
    (hbase : (F.toBasetype type).ty = TY.Tclass)
    (hnone : H.symbols (F.toBasetype type).sym = none ∨ H.symbols (F.toBasetype type).sym = some [])
    (hmark : markVisited (directtypes.getD []) type e = some dt1) :
    iterateAliasThis F H dg (fuel + 1) sc e ctx ret gagerrors directtypes =
      ((F.baseclasses type.sym).foldlM
        (fun (st : IterState Ctx) (b : BaseClass) =>
          (iterateAliasThis F H dg fuel sc (F.castTo sc e (F.aggType b.base)) st.ctx st.ret
              gagerrors (some st.directtypes)).map
            (fun res => ({ r := res.r || st.r, ctx := res.ctx, ret := res.ret,
                           directtypes := res.directtypes.getD st.directtypes } : IterState Ctx)))
        ({ r := false, ctx := ctx, ret := ret, directtypes := dt1 } : IterState Ctx)).map
        (fun st => ({ r := st.r, ctx := st.ctx, ret := st.ret,
                      directtypes := some (st.directtypes.setValue type.deco none) } :
                    IterResult Ctx)) := by
  have hfold : ∀ (bs : List BaseClass) (st : IterState Ctx),
      baseLoop F (fun e1 ctx1 ret1 dt => iterateAliasThis F H dg fuel sc e1 ctx1 ret1 gagerrors dt)
        sc e bs st =
      bs.foldlM
        (fun (st : IterState Ctx) (b : BaseClass) =>
          (iterateAliasThis F H dg fuel sc (F.castTo sc e (F.aggType b.base)) st.ctx st.ret
              gagerrors (some st.directtypes)).map
            (fun res => ({ r := res.r || st.r, ctx := res.ctx, ret := res.ret,
                           directtypes := res.directtypes.getD st.directtypes } : IterState Ctx)))
        st := by
    intro bs
    induction bs with
    | nil => intro st; rfl
    | cons b rest ih =>
      intro st
      rw [baseLoop, List.foldlM_cons]
      simp only [recurse]
      cases iterateAliasThis F H dg fuel sc (F.castTo sc e (F.aggType b.base)) st.ctx st.ret
          gagerrors (some st.directtypes) with
      | error f => rfl
      | ok res => exact ih _
  have hloops : loops F H dg
      (fun e1 ctx1 ret1 dt => iterateAliasThis F H dg fuel sc e1 ctx1 ret1 gagerrors dt)
      sc e type gagerrors { r := false, ctx := ctx, ret := ret, directtypes := dt1 } =
      baseLoop F (fun e1 ctx1 ret1 dt => iterateAliasThis F H dg fuel sc e1 ctx1 ret1 gagerrors dt)
        sc e (F.baseclasses type.sym) { r := false, ctx := ctx, ret := ret, directtypes := dt1 } := by
    unfold loops
    rcases hnone with h | h
    · simp [h, hclass]
    · simp [h, hclass, directLoop]
  rw [iterateAliasThis]
  simp only [he, hbase, or_true, if_true, hmark, hloops, hfold]
  generalize List.foldlM (m := Except Fault)
    (fun (st : IterState Ctx) (b : BaseClass) =>
      (iterateAliasThis F H dg fuel sc (F.castTo sc e (F.aggType b.base)) st.ctx st.ret
          gagerrors (some st.directtypes)).map
        (fun res => ({ r := res.r || st.r, ctx := res.ctx, ret := res.ret,
                       directtypes := res.directtypes.getD st.directtypes } : IterState Ctx)))
    ({ r := false, ctx := ctx, ret := ret, directtypes := dt1 } : IterState Ctx)
    (F.baseclasses type.sym) = x
  cases x with
  | error f => rfl
  | ok st => rfl

/-- The code at the input of C6. For `class K : K1, K2 { }` and a delegate that accepts
everything, an expression of type `K` gives true and the outputs of both base
classes, in declaration order. For `enum E : K { a = null }` the aggregate
underlying the type is the same class `K`, but the type itself is not a class
type: the base classes are not searched and the result is false. The other
traversal of the same graph, `getAliasThisTypes`, decides with
`ad->isClassDeclaration()` on the underlying aggregate. -/
theorem iterateAliasThis_skips_bases_of_enum_of_class :
    (iterateAliasThis Example.FE Example.H Example.dgAlways 20 {} (Example.exp Example.tK)
        0 [] false none).map (fun res => (res.r, res.ret)) =
      .ok (true, [.Exp 0 .TOKother (some Example.tX) none,
                  .Exp 0 .TOKother (some Example.tY) none]) ∧
    Example.FE.toBasetype Example.tE = Example.tK ∧
    (iterateAliasThis Example.FE Example.H Example.dgAlways 20 {} (Example.exp Example.tE)
        0 [] false none).map (fun res => (res.r, res.ret)) = .ok (false, []) := by
  refine ⟨rfl, rfl, rfl⟩

/-- The code at the input of C7: `alias f this; alias x this;` with `int f()` and `int x`.
Both symbols resolve to `int`, and the second registration reports nothing;
in the other order, `alias x this; alias f this;`, it reports the override. -/
theorem semantic_override_missed_after_function :
    resolvedType Registry.F 43 = some Registry.tInt ∧
    resolvedType Registry.F 41 = some Registry.tInt ∧
    Registry.F.equals Registry.tInt Registry.tInt = true ∧
    (semanticAll Registry.F Registry.sc Registry.H0 [⟨"f"⟩, ⟨"x"⟩]).1 = [] ∧
    Registry.listOfS (semanticAll Registry.F Registry.sc Registry.H0 [⟨"f"⟩, ⟨"x"⟩]) =
      some (some [43, 41]) ∧
    (semanticAll Registry.F Registry.sc Registry.H0 [⟨"x"⟩, ⟨"f"⟩]).1 =
      [Diagnostic.OverridingDelegate] := by
  refine ⟨by decide, by decide, by decide, by decide, by decide, by decide⟩

theorem tupleOf_kind (F : Frontend) (s td : Dsymbol) (h : tupleOf F s = some td) :
    F.kind td = DsymbolKind.TupleDeclaration := by
  unfold tupleOf at h
  split at h
  · split at h
    · next hk => simp only [Option.some.injEq] at h; rw [← h]; exact hk
    · cases h
  · cases h

theorem Distinct.snoc (F : Frontend) (ret : Types) (a : Type_) (hd : Distinct F ret)
    (hnew : isDuplicate F ret a = false) : Distinct F (ret ++ [a]) := by
  unfold Distinct at *
  rw [List.pairwise_append]
  refine ⟨hd, List.pairwise_singleton _ _, ?_⟩
  intro r hr b hb
  simp only [List.mem_singleton] at hb
  subst hb
  unfold isDuplicate at hnew
  rw [List.any_eq_false] at hnew
  simpa using hnew r hr

theorem typesLoop_sound (F : Frontend) (H : Heap) (self : CollectCall) (t : Type_)
    (hself : CollectSound F H self) :
    ∀ (is : List Nat) (ret : Types) (lv : Option (List Bool)) (ret1 : Types)
      (lv1 : Option (List Bool)),
      typesLoop F H self t is (ret, lv) = .ok (ret1, lv1) →
      (∃ suffix, ret1 = ret ++ suffix) ∧ (Distinct F ret → Distinct F ret1) ∧
      SpecDelegates F H t is ret ret1 := by
  intro is
  induction is with
  | nil =>
    intro ret lv ret1 lv1 h
    simp only [typesLoop, Except.ok.injEq, Prod.mk.injEq] at h
    obtain ⟨h1, _⟩ := h
    subst h1
    exact ⟨⟨[], by simp⟩, id, SpecDelegates.done t ret⟩
  | cons i rest ih =>
    intro ret lv ret1 lv1 h
    rw [typesLoop] at h
    cases hat : aliasThisOf F H t i with
    | error f => rw [hat] at h; cases h
    | ok p =>
      obtain ⟨oa, islvalue⟩ := p
      rw [hat] at h
      cases oa with
      | none =>
        simp only at h
        obtain ⟨hx, hdist, hspec⟩ := ih ret lv ret1 lv1 h
        exact ⟨hx, hdist, SpecDelegates.unresolved t i rest ret ret1 islvalue hat hspec⟩
      | some a =>
        simp only at h
        cases hdup : isDuplicate F ret a with
        | true =>
          simp only [hdup, if_true] at h
          obtain ⟨hx, hdist, hspec⟩ := ih ret lv ret1 lv1 h
          exact ⟨hx, hdist, SpecDelegates.present t i rest ret ret1 a islvalue hat hdup hspec⟩
        | false =>
          simp only [hdup, Bool.false_eq_true, if_false] at h
          cases hrec : self a (ret ++ [a]) none with
          | error f => rw [hrec] at h; cases h
          | ok q =>
            obtain ⟨ret2, lv2⟩ := q
            rw [hrec] at h
            simp only at h
            obtain ⟨⟨s1, hs1⟩, hd1, hsp1⟩ := hself a (ret ++ [a]) none ret2 lv2 hrec
            obtain ⟨⟨s2, hs2⟩, hd2, hsp2⟩ := ih ret2 _ ret1 lv1 h
            refine ⟨⟨[a] ++ s1 ++ s2, ?_⟩, ?_, ?_⟩
            · rw [hs2, hs1]; simp
            · intro hd
              exact hd2 (hd1 (Distinct.snoc F ret a hd hdup))
            · exact SpecDelegates.found t i rest ret ret2 ret1 a islvalue hat hdup hsp1 hsp2

theorem basesLoop_sound (F : Frontend) (H : Heap) (self : CollectCall)
    (hself : CollectSound F H self) :
    ∀ (bs : List BaseClass) (ret : Types) (lv : Option (List Bool)) (ret1 : Types)
      (lv1 : Option (List Bool)),
      basesLoop F self bs (ret, lv) = .ok (ret1, lv1) →
      (∃ suffix, ret1 = ret ++ suffix) ∧ (Distinct F ret → Distinct F ret1) ∧
      SpecBases F H bs ret ret1 := by
  intro bs
  induction bs with
  | nil =>
    intro ret lv ret1 lv1 h
    simp only [basesLoop, Except.ok.injEq, Prod.mk.injEq] at h
    obtain ⟨h1, _⟩ := h
    subst h1
    exact ⟨⟨[], by simp⟩, id, SpecBases.done ret⟩
  | cons b rest ih =>
    intro ret lv ret1 lv1 h
    rw [basesLoop] at h
    cases hrec : self (baseType F b) ret lv with
    | error f => rw [hrec] at h; cases h
    | ok q =>
      obtain ⟨ret2, lv2⟩ := q
      rw [hrec] at h
      simp only at h
      obtain ⟨⟨s1, hs1⟩, hd1, hsp1⟩ := hself _ ret lv ret2 lv2 hrec
      obtain ⟨⟨s2, hs2⟩, hd2, hsp2⟩ := ih ret2 lv2 ret1 lv1 h
      refine ⟨⟨s1 ++ s2, ?_⟩, fun hd => hd2 (hd1 hd), SpecBases.step b rest ret ret2 ret1 hsp1 hsp2⟩
      rw [hs2, hs1]; simp

/-- Whenever `getAliasThisTypes` returns, `ret` has been extended at its end,
has stayed free of equal elements, and has been collected in the order of
section 4.4 of the specification. -/
theorem getAliasThisTypes_sound (F : Frontend) (H : Heap) :
    ∀ fuel, CollectSound F H (getAliasThisTypes F H fuel) := by
  intro fuel
  induction fuel with
  | zero =>
    intro t ret lv ret1 lv1 h
    simp [getAliasThisTypes] at h
  | succ fuel ih =>
    intro t ret lv ret1 lv1 h
    rw [getAliasThisTypes] at h
    cases hl : typesLoop F H (getAliasThisTypes F H fuel) t (List.range (aliasThisCount F H t))
        (ret, lv) with
    | error f => rw [hl] at h; cases h
    | ok st1 =>
      obtain ⟨ret2, lv2⟩ := st1
      rw [hl] at h
      simp only at h
      obtain ⟨⟨s1, hs1⟩, hd1, hsp1⟩ := typesLoop_sound F H _ t ih _ ret lv ret2 lv2 hl
      obtain ⟨⟨s2, hs2⟩, hd2, hsp2⟩ := basesLoop_sound F H _ ih _ ret2 lv2 ret1 lv1 h
      refine ⟨⟨s1 ++ s2, ?_⟩, fun hd => hd2 (hd1 hd), SpecCollects.intro t ret ret2 ret1 hsp1 hsp2⟩
      rw [hs2, hs1]; simp

theorem isDuplicate_append (F : Frontend) (ret suffix : Types) (a : Type_)
    (h : isDuplicate F ret a = true) : isDuplicate F (ret ++ suffix) a = true := by
  unfold isDuplicate at *
  rw [List.any_append, h]
  rfl

theorem uncovered_append_le (F : Frontend) (U ret suffix : Types) :
    uncovered F U (ret ++ suffix) ≤ uncovered F U ret := by
  unfold uncovered
  apply List.countP_mono_left
  intro a _ ha
  cases h : isDuplicate F ret a with
  | false => rfl
  | true => rw [isDuplicate_append F ret suffix a h] at ha; simp at ha

theorem uncovered_push_lt (F : Frontend) (U ret : Types) (a : Type_) (ha : a ∈ U)
    (hrefl : F.equals a a = true) (hnew : isDuplicate F ret a = false) :
    uncovered F U (ret ++ [a]) < uncovered F U ret := by
  unfold uncovered
  apply countP_lt_of_imp _ _ U a
  · intro b hb
    cases h : isDuplicate F ret b with
    | false => rfl
    | true => rw [isDuplicate_append F ret [a] b h] at hb; simp at hb
  · exact ha
  · simp [hnew]
  · simp [isDuplicate, hrefl]

theorem measure_step (u1 u R k : Nat) (h : u1 < u) (hk : k ≤ R) :
    u1 * (R + 1) + k < u * (R + 1) := by
  have : (u1 + 1) * (R + 1) ≤ u * (R + 1) := Nat.mul_le_mul_right _ h
  rw [Nat.add_mul, Nat.one_mul] at this
  omega

theorem measure_mono (u1 u R : Nat) (h : u1 ≤ u) : u1 * (R + 1) ≤ u * (R + 1) :=
  Nat.mul_le_mul_right _ h

theorem typesLoop_total (F : Frontend) (H : Heap) (self : CollectCall) (t : Type_)
    (U : Types) (rank : Type_ → Nat) (R fuel : Nat) (hfin : FiniteTypes F H U rank R)
    (hsound : CollectSound F H self) (htotal : CollectTotal F U rank R fuel self) :
    ∀ (is : List Nat) (ret : Types) (lv : Option (List Bool)),
      uncovered F U ret * (R + 1) ≤ fuel →
      ∃ ret1 lv1, typesLoop F H self t is (ret, lv) = .ok (ret1, lv1) := by
  intro is
  induction is with
  | nil => intro ret lv _; exact ⟨ret, lv, rfl⟩
  | cons i rest ih =>
    intro ret lv hm
    rw [typesLoop]
    obtain ⟨oa, islvalue, hat, hU⟩ := hfin.resolves t i
    rw [hat]
    cases oa with
    | none => exact ih ret lv hm
    | some a =>
      simp only
      cases hdup : isDuplicate F ret a with
      | true => simp only [if_true]; exact ih ret lv hm
      | false =>
        simp only [Bool.false_eq_true, if_false]
        have ha : a ∈ U := hU a rfl
        have hlt := uncovered_push_lt F U ret a ha (hfin.refl a ha) hdup
        have hstep := measure_step _ _ R (rank a) hlt (hfin.rankU a ha)
        obtain ⟨ret2, lv2, hrec⟩ := htotal a (ret ++ [a]) none (hfin.rankU a ha)
          (lt_of_lt_of_le hstep hm)
        rw [hrec]
        simp only
        obtain ⟨⟨s1, hs1⟩, _, _⟩ := hsound a (ret ++ [a]) none ret2 lv2 hrec
        refine ih ret2 _ (le_trans (measure_mono _ _ R ?_) hm)
        rw [hs1, List.append_assoc]
        exact uncovered_append_le F U ret _

theorem basesLoop_total (F : Frontend) (H : Heap) (self : CollectCall)
    (U : Types) (rank : Type_ → Nat) (R fuel k : Nat) (hk : k ≤ R)
    (hsound : CollectSound F H self) (htotal : CollectTotal F U rank R fuel self) :
    ∀ (bs : List BaseClass) (ret : Types) (lv : Option (List Bool)),
      (∀ b ∈ bs, rank (baseType F b) < k) →
      uncovered F U ret * (R + 1) + k ≤ fuel →
      ∃ ret1 lv1, basesLoop F self bs (ret, lv) = .ok (ret1, lv1) := by
  intro bs
  induction bs with
  | nil => intro ret lv _ _; exact ⟨ret, lv, rfl⟩
  | cons b rest ih =>
    intro ret lv hb hm
    rw [basesLoop]
    have hrb := hb b (List.mem_cons_self _ _)
    obtain ⟨ret2, lv2, hrec⟩ := htotal (baseType F b) ret lv (by omega) (by omega)
    rw [hrec]
    simp only
    obtain ⟨⟨s1, hs1⟩, _, _⟩ := hsound _ ret lv ret2 lv2 hrec
    refine ih ret2 lv2 (fun x hx => hb x (List.mem_cons_of_mem _ hx)) ?_
    have := measure_mono _ _ R (uncovered_append_le F U ret s1)
    rw [← hs1] at this
    omega

/-- Termination of `getAliasThisTypes` on a finite type graph with a well
founded base-class relation: the call returns when the fuel exceeds
`uncovered * (R + 1) + rank t`. -/
theorem getAliasThisTypes_total (F : Frontend) (H : Heap) (U : Types) (rank : Type_ → Nat)
    (R : Nat) (hfin : FiniteTypes F H U rank R) :
    ∀ fuel, CollectTotal F U rank R fuel (getAliasThisTypes F H fuel) := by
  intro fuel
  induction fuel with
  | zero => intro t ret lv _ h; omega
  | succ fuel ih =>
    intro t ret lv hr hm
    rw [getAliasThisTypes]
    obtain ⟨ret2, lv2, hl⟩ := typesLoop_total F H _ t U rank R fuel hfin
      (getAliasThisTypes_sound F H fuel) ih (List.range (aliasThisCount F H t)) ret lv (by omega)
    rw [hl]
    simp only
    obtain ⟨⟨s1, hs1⟩, _, _⟩ := typesLoop_sound F H _ t (getAliasThisTypes_sound F H fuel) _
      ret lv ret2 lv2 hl
    refine basesLoop_total F H _ U rank R fuel (rank t) hr (getAliasThisTypes_sound F H fuel) ih
      _ ret2 lv2 (hfin.bases t) ?_
    have := measure_mono _ _ R (uncovered_append_le F U ret s1)
    rw [← hs1] at this
    omega

theorem uncovered_le_length (F : Frontend) (U ret : Types) : uncovered F U ret ≤ U.length :=
  List.countP_le_length _

theorem Example.memberType_mem (id : Identifier) : Example.memberType id ∈ Example.U := by
  unfold Example.memberType
  split_ifs <;> decide

theorem Example.kind_cases (s : Dsymbol) :
    Example.F.kind s = DsymbolKind.AggregateDeclaration ∨
    Example.F.kind s = DsymbolKind.VarDeclaration := by
  have h : Example.F.kind s = (if s ≤ 9 ∨ (30 ≤ s ∧ s ≤ 33) then
      DsymbolKind.AggregateDeclaration else DsymbolKind.VarDeclaration) := rfl
  rw [h]
  split_ifs
  · left; rfl
  · right; rfl

theorem Example.resolves (t : Type_) (i : Nat) :
    ∃ oa lv, aliasThisOf Example.F Example.H t i = .ok (oa, lv) ∧
      ∀ a, oa = some a → a ∈ Example.U := by
  unfold aliasThisOf
  split
  · exact ⟨none, false, rfl, fun a h => by cases h⟩
  · split
    · exact ⟨none, false, rfl, fun a h => by cases h⟩
    · split
      · exact ⟨none, false, rfl, fun a h => by cases h⟩
      · next s0 _ =>
        rcases Example.kind_cases s0 with hk | hk
        · refine ⟨none, false, ?_, fun a h => by cases h⟩
          simp [hk, DsymbolKind.isDeclaration]
        · refine ⟨some (Example.memberType (Example.ident s0)), true, ?_, ?_⟩
          · simp [hk, DsymbolKind.isDeclaration]
            rfl
          · intro a ha
            cases ha
            exact Example.memberType_mem _

theorem Example.finiteTypes : FiniteTypes Example.F Example.H Example.U Example.rank 1 := by
  refine ⟨Example.resolves, ?_, ?_, ?_⟩
  · intro a _
    show (a.deco == a.deco) = true
    simp
  · intro a _
    unfold Example.rank
    split_ifs <;> omega
  · intro t b hb
    unfold classBases at hb
    split at hb
    · next cd hcd =>
      have hsym : cd = t.sym := by
        unfold isAggregate at hcd
        simp only [Example.F] at hcd
        split_ifs at hcd <;> simp_all
      subst hsym
      split at hb
      · have hb2 : b ∈ (if t.sym = 7 then [(⟨none, 8⟩ : BaseClass), ⟨none, 9⟩]
            else if t.sym = 30 then [⟨none, 8⟩] else []) := hb
        split_ifs at hb2 with h7 h30
        · have hr : Example.rank t = 1 := by simp [Example.rank, h7]
          rw [hr]
          simp only [List.mem_cons, List.mem_singleton, List.not_mem_nil, or_false] at hb2
          rcases hb2 with h | h <;> subst h <;> decide
        · have hr : Example.rank t = 1 := by simp [Example.rank, h30]
          rw [hr]
          simp only [List.mem_singleton] at hb2
          subst hb2
          decide
        · cases hb2
      · cases hb
    · cases hb

/-- The code at the input of C11: `struct A3 { B3 b; C3 c; alias b this; alias c this; }`
with `struct B3 { C3 c; alias c this; }`, called with empty `ret` and
`islvalues`. The types are `[B3, C3]` but the flags are `[true]`: `C3` is found
through `B3` by the recursive call of line 240, which does not hand
`islvalues` on, and the later direct delegate `c` is a duplicate. The call of
line 252 for the base classes does hand `islvalues` on: for `class K : K1, K2`
the two types found through the base classes have their two flags. -/
theorem getAliasThisTypes_flags_missing_for_nested_types :
    getAliasThisTypes Example.F Example.H 4 Example.tA3 [] (some []) =
      .ok ([Example.tB3, Example.tC3], some [true]) ∧
    getAliasThisTypes Example.F Example.H 4 Example.tK [] (some []) =
      .ok ([Example.tX, Example.tY], some [true, true]) := by
  constructor <;> rfl

/-- The code at the input of C17: `struct S { int f(); alias f this; }` when the call
of `f` cannot be resolved (`resolveFuncCall` returns null). `aliasThisOf`
returns `Type::terror`, which is not null, so line 220 does not skip it and
`getAliasThisTypes` pushes the error type. -/
theorem getAliasThisTypes_pushes_error_type :
    Registry.F.resolveFuncCall 43 Registry.tS = none ∧
    aliasThisOf Registry.F Registry.Hf Registry.tS 0 = .ok (some Registry.F.terror, false) ∧
    Registry.F.terror.ty = TY.Terror ∧
    getAliasThisTypes Registry.F Registry.Hf 4 Registry.tS [] (some []) =
      .ok ([Registry.F.terror], some [false]) := by
  refine ⟨rfl, rfl, rfl, rfl⟩

theorem Tuples.cycle_step (fuel : Nat) :
    tupleLoop Tuples.F Tuples.H (fuel + 1) Tuples.tCA = tupleLoop Tuples.F Tuples.H fuel Tuples.tCB ∧
    tupleLoop Tuples.F Tuples.H (fuel + 1) Tuples.tCB = tupleLoop Tuples.F Tuples.H fuel Tuples.tCA :=
  ⟨rfl, rfl⟩

theorem Tuples.cycle_diverges (fuel : Nat) :
    tupleLoop Tuples.F Tuples.H fuel Tuples.tCA = .error .fuel ∧
    tupleLoop Tuples.F Tuples.H fuel Tuples.tCB = .error .fuel := by
  induction fuel with
  | zero => exact ⟨rfl, rfl⟩
  | succ fuel ih =>
    rw [(Tuples.cycle_step fuel).1, (Tuples.cycle_step fuel).2]
    exact ⟨ih.2, ih.1⟩

/-- The code at the input of C14: `class CA { CB b; alias b this; }` and
`class CB { CA a; alias a this; }`, neither delegate tuple-valued. The loop of
`isAliasThisTuple` passes from `CA` to `CB` and back without end: whatever the
fuel, the run is cut off by the fuel and never returns null. -/
theorem isAliasThisTuple_diverges_on_cycle (fuel : Nat) :
    isAliasThisTuple Tuples.F Tuples.H fuel (Tuples.exp 1 Tuples.tCA) = .error .fuel :=
  (Tuples.cycle_diverges fuel).1

/-- The code at the input of C18: `struct W { T t; int n; alias t this; alias n this; }`
has two non-tuple delegates, and the target `T` of the first has a tuple
delegate. The comment of line 320 says that the function works only with a
single alias this, but the number of entries is not tested: the function
follows the first delegate and returns the tuple of `T`, as it does for
`struct V { T t; alias t this; }` with its single delegate. -/
theorem isAliasThisTuple_follows_first_of_two :
    Tuples.H.symbols 51 = some [62, 63] ∧
    tupleOf Tuples.F 62 = none ∧ tupleOf Tuples.F 63 = none ∧
    isAliasThisTuple Tuples.F Tuples.H 2 (Tuples.exp 1 Tuples.tW) = .ok (some 61) ∧
    isAliasThisTuple Tuples.F Tuples.H 2 (Tuples.exp 1 Tuples.tV) = .ok (some 61) := by
  refine ⟨rfl, rfl, rfl, rfl, rfl⟩

theorem aliasThisOf_heads (F : Frontend) (H H1 : Heap) (h : HeadsAgree H H1) (t : Type_) :
    aliasThisOf F H t 0 = aliasThisOf F H1 t 0 := by
  unfold aliasThisOf
  cases hag : isAggregate F t with
  | none => rfl
  | some ad =>
    have hh := h ad
    simp only []
    cases h1 : H.symbols ad with
    | none =>
      cases h2 : H1.symbols ad with
      | none => rfl
      | some l2 => rw [h1, h2] at hh; cases hh
    | some l1 =>
      cases h2 : H1.symbols ad with
      | none => rw [h1, h2] at hh; cases hh
      | some l2 =>
        rw [h1, h2] at hh
        simp only [Option.map_some', Option.some.injEq] at hh
        simp only [hh]

theorem tupleLoop_heads (F : Frontend) (H H1 : Heap) (h : HeadsAgree H H1) :
    ∀ (fuel : Nat) (t : Type_), tupleLoop F H fuel t = tupleLoop F H1 fuel t := by
  intro fuel
  induction fuel with
  | zero => intro t; rfl
  | succ fuel ih =>
    intro t
    rw [tupleLoop, tupleLoop]
    cases hs : F.toDsymbol t with
    | none => rfl
    | some s =>
      simp only []
      split
      · have hh := h s
        rw [aliasThisOf_heads F H H1 h t]
        cases h1 : H.symbols s with
        | none =>
          cases h2 : H1.symbols s with
          | none => rfl
          | some l2 => rw [h1, h2] at hh; cases hh
        | some l1 =>
          cases h2 : H1.symbols s with
          | none => rw [h1, h2] at hh; cases hh
          | some l2 =>
            rw [h1, h2] at hh
            simp only [Option.map_some', Option.some.injEq] at hh
            simp only [hh]
            cases l2[0]? with
            | none => rfl
            | some s0 =>
              simp only []
              split
              · rfl
              · cases aliasThisOf F H1 t 0 with
                | error f => rfl
                | ok p =>
                  obtain ⟨oa, lv⟩ := p
                  cases oa with
                  | none => rfl
                  | some att => exact ih att
      · rfl

/-- The array of an aggregate is read by `isAliasThisTuple` at element 0 only
(lines 320 and 327), whatever the number of its entries: on two heaps that
give every aggregate the same element 0, it returns the same. -/
theorem isAliasThisTuple_reads_first_delegate_only (F : Frontend) (H H1 : Heap) (fuel : Nat)
    (e : Expression) (h : HeadsAgree H H1) :
    isAliasThisTuple F H fuel e = isAliasThisTuple F H1 fuel e := by
  unfold isAliasThisTuple
  cases e.type with
  | none => rfl
  | some type => exact tupleLoop_heads F H H1 h fuel _

theorem Tuples.headsAgree : HeadsAgree Tuples.H Tuples.H1 := by
  intro ad
  simp only [Heap.symbols, Tuples.H, Tuples.H1]
  split_ifs <;> rfl

/-- The struct `W` with its two delegates `t` and `n`, and `W` with `t` alone:
`isAliasThisTuple` returns the same. -/
theorem isAliasThisTuple_reads_first_delegate_only_witness :
    isAliasThisTuple Tuples.F Tuples.H 2 (Tuples.exp 1 Tuples.tW) =
      isAliasThisTuple Tuples.F Tuples.H1 2 (Tuples.exp 1 Tuples.tW) :=
  isAliasThisTuple_reads_first_delegate_only Tuples.F Tuples.H Tuples.H1 2
    (Tuples.exp 1 Tuples.tW) Tuples.headsAgree

/-- C15. On a finite delegation graph, a call of `iterateAliasThis` with the
table `directtypes` (null stands for the empty table) and more fuel than
unmarked keys returns, and the table it leaves marks exactly the keys that were
marked on entry. A call on a type that is not a struct or class returns at
once with everything unchanged; so does a call on a key that is marked. A call
on an unmarked key runs its two loops on the table with the key of `e` marked
(and no other marker changed), the loops keep the markers, the key of `e` is
cleared on exit, and a later call on the same key with the table left behind
is not rejected by `markVisited`: the type can be explored again. -/
theorem iterateAliasThis_restores_markers {Ctx : Type} (F : Frontend) (H : Heap)
    (dg : Delegate Ctx) (sc : Scope) (gagerrors : Bool) (keys : List String)
    (hfin : FiniteGraph F sc keys) (fuel : Nat) (e : Expression) (ctx : Ctx)
    (ret : Expressions) (directtypes : Option StringTable) (type : Type_)
    (he : e.type = some type) (hk : type.deco ∈ keys)
    (hfuel : unmarked keys (directtypes.getD []) ≤ fuel) :
    ∃ res, iterateAliasThis F H dg (fuel + 1) sc e ctx ret gagerrors directtypes = .ok res ∧
      SameMarks (directtypes.getD []) (res.directtypes.getD []) ∧
      (¬ ((F.toBasetype type).ty = TY.Tstruct ∨ (F.toBasetype type).ty = TY.Tclass) →
        res = { r := false, ctx := ctx, ret := ret, directtypes := directtypes }) ∧
      (((F.toBasetype type).ty = TY.Tstruct ∨ (F.toBasetype type).ty = TY.Tclass) →
        (directtypes.getD []).isMarked type.deco = true →
        res = { r := false, ctx := ctx, ret := ret,
                directtypes := some (directtypes.getD []) }) ∧
      (((F.toBasetype type).ty = TY.Tstruct ∨ (F.toBasetype type).ty = TY.Tclass) →
        (directtypes.getD []).isMarked type.deco = false →
        ∃ dt1 st2, markVisited (directtypes.getD []) type e = some dt1 ∧
          dt1.isMarked type.deco = true ∧
          (∀ k, k ≠ type.deco → dt1.isMarked k = (directtypes.getD []).isMarked k) ∧
          loops F H dg
            (fun e1 ctx1 ret1 dt => iterateAliasThis F H dg fuel sc e1 ctx1 ret1 gagerrors dt)
            sc e type gagerrors { r := false, ctx := ctx, ret := ret, directtypes := dt1 } =
              .ok st2 ∧
          SameMarks dt1 st2.directtypes ∧
          res = { r := st2.r, ctx := st2.ctx, ret := st2.ret,
                  directtypes := some (st2.directtypes.setValue type.deco none) } ∧
          (st2.directtypes.setValue type.deco none).isMarked type.deco = false ∧
          ∃ dt3, markVisited (res.directtypes.getD []) type e = some dt3) := by
  have hself : CallTotal keys fuel
      (fun e1 ctx1 ret1 dt1 => iterateAliasThis F H dg fuel sc e1 ctx1 ret1 gagerrors dt1) := by
    intro e1 ctx1 ret1 dt1 t1 he1 hk1 hlt1
    obtain ⟨res, hres, hm⟩ :=
      iterateAliasThis_total F H dg sc gagerrors keys hfin fuel e1 ctx1 ret1 (some dt1) t1
        he1 hk1 hlt1
    rcases hm with hm | ⟨dt2, hdt2, hs⟩
    · exact ⟨res, dt1, hres, hm, SameMarks.refl _⟩
    · exact ⟨res, dt2, hres, hdt2, hs⟩
  rw [iterateAliasThis]
  simp only [he]
  by_cases hagg : (F.toBasetype type).ty = TY.Tstruct ∨ (F.toBasetype type).ty = TY.Tclass
  · rw [if_pos hagg]
    rcases markVisited_spec (directtypes.getD []) type e with
      ⟨hmv, hmarked⟩ | ⟨dt1, hmv, hnot, hmarks⟩
    · simp only [hmv]
      refine ⟨_, rfl, SameMarks.refl _, fun h => absurd hagg h, fun _ _ => rfl, ?_⟩
      intro _ hfalse
      rw [hmarked] at hfalse
      cases hfalse
    · simp only [hmv]
      have hlt1 : unmarked keys dt1 < fuel := by
        have := unmarked_lt_of_mark keys _ dt1 type.deco hk hnot hmarks
        omega
      obtain ⟨st2, hloops, hsame⟩ := loops_total F H dg _ sc e gagerrors keys fuel hfin hself
        type he hagg { r := false, ctx := ctx, ret := ret, directtypes := dt1 } hlt1
      simp only [hloops]
      have hclear : (st2.directtypes.setValue type.deco none).isMarked type.deco = false := by
        rw [StringTable.isMarked_setValue_none]
        simp
      have hsameAll : SameMarks (directtypes.getD [])
          (st2.directtypes.setValue type.deco none) := by
        intro k
        rw [StringTable.isMarked_setValue_none, hsame k, hmarks k]
        by_cases hkk : k = type.deco
        · subst hkk; simp [hnot]
        · simp [hkk]
      refine ⟨_, rfl, hsameAll, fun h => absurd hagg h, ?_, ?_⟩
      · intro _ htrue
        rw [hnot] at htrue
        cases htrue
      · intro _ _
        refine ⟨dt1, st2, rfl, ?_, ?_, hloops, hsame, rfl, hclear, ?_⟩
        · rw [hmarks]; simp
        · intro k hkk
          rw [hmarks]; simp [hkk]
        · rcases markVisited_spec (st2.directtypes.setValue type.deco none) type e with
            ⟨_, hm⟩ | ⟨dt3, hdt3, _, _⟩
          · rw [hclear] at hm
            cases hm
          · exact ⟨dt3, hdt3⟩
  · rw [if_neg hagg]
    refine ⟨_, rfl, SameMarks.refl _, fun _ => rfl, fun h => absurd h hagg,
      fun h => absurd h hagg⟩

/-- A traversal that explores a type twice. With
`struct A3 { B3 b; C3 c; alias b this; alias c this; }`,
`struct B3 { C3 c; alias c this; }` and `struct C3 { int x; alias x this; }`, the
delegate is called on `b`, on `b.c`, on `b.c.x`, on `c` and on `c.x`: the type
`C3` is explored below `B3` and again as the second delegate of `A3`. -/
theorem iterateAliasThis_revisits_on_disjoint_branch :
    (iterateAliasThis Example.F Example.HD (logged Example.dgNever) 20 {}
        (Example.exp Example.tA3) (0, []) [] false none).map
          (fun resL => resL.ctx.2.map (fun c => c.aliasexpr.type)) =
      .ok [some Example.tB3, some Example.tC3, some Example.tX, some Example.tC3,
        some Example.tX] := by
  rfl

/-- An instance of C15: the struct `A3` of the example, whose traversal explores
`C3` twice, with a null table. -/
theorem iterateAliasThis_restores_markers_witness :
    ∃ res, iterateAliasThis Example.F Example.HD Example.dgNever (19 + 1) {}
        (Example.exp Example.tA3) 0 [] false none = .ok res ∧
      SameMarks ((none : Option StringTable).getD []) (res.directtypes.getD []) ∧
      (¬ ((Example.F.toBasetype Example.tA3).ty = TY.Tstruct ∨
          (Example.F.toBasetype Example.tA3).ty = TY.Tclass) →
        res = { r := false, ctx := 0, ret := [], directtypes := none }) ∧
      (((Example.F.toBasetype Example.tA3).ty = TY.Tstruct ∨
          (Example.F.toBasetype Example.tA3).ty = TY.Tclass) →
        ((none : Option StringTable).getD []).isMarked Example.tA3.deco = true →
        res = { r := false, ctx := 0, ret := [],
                directtypes := some ((none : Option StringTable).getD []) }) ∧
      (((Example.F.toBasetype Example.tA3).ty = TY.Tstruct ∨
          (Example.F.toBasetype Example.tA3).ty = TY.Tclass) →
        ((none : Option StringTable).getD []).isMarked Example.tA3.deco = false →
        ∃ dt1 st2, markVisited ((none : Option StringTable).getD []) Example.tA3
            (Example.exp Example.tA3) = some dt1 ∧
          dt1.isMarked Example.tA3.deco = true ∧
          (∀ k, k ≠ Example.tA3.deco →
            dt1.isMarked k = ((none : Option StringTable).getD []).isMarked k) ∧
          loops Example.F Example.HD Example.dgNever
            (fun e1 ctx1 ret1 dt =>
              iterateAliasThis Example.F Example.HD Example.dgNever 19 {} e1 ctx1 ret1 false dt)
            {} (Example.exp Example.tA3) Example.tA3 false
            { r := false, ctx := 0, ret := [], directtypes := dt1 } = .ok st2 ∧
          SameMarks dt1 st2.directtypes ∧
          res = { r := st2.r, ctx := st2.ctx, ret := st2.ret,
                  directtypes := some (st2.directtypes.setValue Example.tA3.deco none) } ∧
          (st2.directtypes.setValue Example.tA3.deco none).isMarked Example.tA3.deco = false ∧
          ∃ dt3, markVisited (res.directtypes.getD []) Example.tA3 (Example.exp Example.tA3) =
            some dt3) :=
  iterateAliasThis_restores_markers Example.F Example.HD Example.dgNever {} false Example.keys
    (Example.finite {}) 19 (Example.exp Example.tA3) 0 [] none Example.tA3 rfl (by decide)
    (by decide)

/-- One step of the loop of lines 90-116 on a skipped candidate, for every
delegate `dg`, every recursive call `self` and every state `st` of the loop
variables: if the candidate `e1` of the alias-this symbol `i` was built with a
non-zero number of errors while `gagerrors` is set, or if its type is `Terror`
(whatever `gagerrors` is), the step does nothing and the loop goes on with the
next symbols from the same state. -/
theorem directLoop_skips_error_candidates {Ctx : Type} (F : Frontend) (H : Heap)
    (dg : Delegate Ctx) (self : IterCall Ctx) (sc : Scope) (e : Expression) (gagerrors : Bool)
    (i : Nat) (rest : List Nat) (st : IterState Ctx) (e1 : Expression) (errors : Nat)
    (hres : resolveAliasThis F H sc e i = .ok (e1, errors))
    (hskip : (gagerrors = true ∧ errors ≠ 0) ∨ (∃ t1, e1.type = some t1 ∧ t1.ty = TY.Terror)) :
    directLoop F H dg self sc e gagerrors (i :: rest) st =
      directLoop F H dg self sc e gagerrors rest st := by
  rw [directLoop]
  simp only [hres]
  rcases hskip with ⟨hg, herr⟩ | ⟨t1, ht1, hty⟩
  · rw [if_pos (by simp [hg, herr])]
  · by_cases hc : (gagerrors && decide (errors ≠ 0)) = true
    · rw [if_pos hc]
    · rw [if_neg hc]
      simp only [ht1, hty, if_true]

/-- Two traversals with skipped candidates, with a delegate that accepts
every candidate: the only call of the delegate is the one on the member `y`. -/
theorem iterateAliasThis_skipped_candidates_not_logged :
    (iterateAliasThis Example.F Example.HErr (logged Example.dgAlways) 20 {}
        (Example.exp Example.tP) (0, []) [] false none).map
          (fun resL => (resL.ret, resL.ctx.2.map (fun c => c.aliasexpr.type))) =
      .ok ([.Exp 0 .TOKother (some Example.tY) none], [some Example.tY]) ∧
    (iterateAliasThis Example.FG Example.H (logged Example.dgAlways) 20 {}
        (Example.exp Example.tP) (0, []) [] true none).map
          (fun resL => (resL.ret, resL.ctx.2.map (fun c => c.aliasexpr.type))) =
      .ok ([.Exp 0 .TOKother (some Example.tY) none], [some Example.tY]) := by
  constructor <;> rfl

theorem typesLoop_bound (F : Frontend) (H : Heap) (self : CollectCall) (t : Type_)
    (U : Types) (rank : Type_ → Nat) (R : Nat) (hfin : FiniteTypes F H U rank R)
    (hself : CollectBound F U self) :
    ∀ (is : List Nat) (ret : Types) (lv : Option (List Bool)) (ret1 : Types)
      (lv1 : Option (List Bool)),
      typesLoop F H self t is (ret, lv) = .ok (ret1, lv1) →
      uncovered F U ret1 + ret1.length ≤ uncovered F U ret + ret.length := by
  intro is
  induction is with
  | nil =>
    intro ret lv ret1 lv1 h
    simp only [typesLoop, Except.ok.injEq, Prod.mk.injEq] at h
    rw [h.1]
  | cons i rest ih =>
    intro ret lv ret1 lv1 h
    rw [typesLoop] at h
    obtain ⟨oa, islvalue, hat, hU⟩ := hfin.resolves t i
    rw [hat] at h
    cases oa with
    | none => exact ih ret lv ret1 lv1 h
    | some a =>
      simp only at h
      cases hdup : isDuplicate F ret a with
      | true =>
        rw [hdup] at h
        simp only [if_true] at h
        exact ih ret lv ret1 lv1 h
      | false =>
        rw [hdup] at h
        simp only [Bool.false_eq_true, if_false] at h
        have ha : a ∈ U := hU a rfl
        have hlt := uncovered_push_lt F U ret a ha (hfin.refl a ha) hdup
        cases hrec : self a (ret ++ [a]) none with
        | error f => rw [hrec] at h; cases h
        | ok p =>
          obtain ⟨ret2, lv2⟩ := p
          rw [hrec] at h
          simp only at h
          have h1 := ih ret2 _ ret1 lv1 h
          have h2 := hself a (ret ++ [a]) none ret2 lv2 hrec
          rw [List.length_append, List.length_singleton] at h2
          omega

theorem basesLoop_bound (F : Frontend) (self : CollectCall) (U : Types)
    (hself : CollectBound F U self) :
    ∀ (bs : List BaseClass) (ret : Types) (lv : Option (List Bool)) (ret1 : Types)
      (lv1 : Option (List Bool)),
      basesLoop F self bs (ret, lv) = .ok (ret1, lv1) →
      uncovered F U ret1 + ret1.length ≤ uncovered F U ret + ret.length := by
  intro bs
  induction bs with
  | nil =>
    intro ret lv ret1 lv1 h
    simp only [basesLoop, Except.ok.injEq, Prod.mk.injEq] at h
    rw [h.1]
  | cons b rest ih =>
    intro ret lv ret1 lv1 h
    rw [basesLoop] at h
    cases hrec : self (baseType F b) ret lv with
    | error f => rw [hrec] at h; cases h
    | ok p =>
      obtain ⟨ret2, lv2⟩ := p
      rw [hrec] at h
      simp only at h
      have h1 := ih ret2 lv2 ret1 lv1 h
      have h2 := hself _ ret lv ret2 lv2 hrec
      omega

/-- Every type that `getAliasThisTypes` appends covers one more type of `U`. -/
theorem getAliasThisTypes_bound (F : Frontend) (H : Heap) (U : Types) (rank : Type_ → Nat)
    (R : Nat) (hfin : FiniteTypes F H U rank R) :
    ∀ fuel, CollectBound F U (getAliasThisTypes F H fuel) := by
  intro fuel
  induction fuel with
  | zero => intro t ret lv ret1 lv1 h; cases h
  | succ fuel ih =>
    intro t ret lv ret1 lv1 h
    rw [getAliasThisTypes] at h
    cases hl : typesLoop F H (getAliasThisTypes F H fuel) t
        (List.range (aliasThisCount F H t)) (ret, lv) with
    | error f => rw [hl] at h; cases h
    | ok p =>
      obtain ⟨ret2, lv2⟩ := p
      rw [hl] at h
      simp only at h
      have h1 := typesLoop_bound F H _ t U rank R hfin ih _ ret lv ret2 lv2 hl
      have h2 := basesLoop_bound F _ U ih _ ret2 lv2 ret1 lv1 h
      omega

/-- C19. On a finite type graph whose base-class relation is well founded (the
alias-this edges may form cycles), `getAliasThisTypes` returns for every `ret`
and `islvalues` it is called with, once the fuel (the depth of the recursion)
exceeds `U.length * (R + 1) + rank t`. The list on return is `ret` followed by
the appended types, and their number, which is the number of recursive calls
of line 240 (one after each append), is at most the number of types of `U`
that no element of `ret` equals, hence at most the number of types of `U`. -/
theorem getAliasThisTypes_terminates_on_cycles (F : Frontend) (H : Heap) (U : Types)
    (rank : Type_ → Nat) (R : Nat) (hfin : FiniteTypes F H U rank R) (t : Type_)
    (hr : rank t ≤ R) (ret : Types) (islvalues : Option (List Bool)) (fuel : Nat)
    (hfuel : U.length * (R + 1) + rank t < fuel) :
    ∃ suffix lv, getAliasThisTypes F H fuel t ret islvalues = .ok (ret ++ suffix, lv) ∧
      suffix.length ≤ uncovered F U ret ∧ uncovered F U ret ≤ U.length := by
  have hm : uncovered F U ret * (R + 1) + rank t < fuel := by
    have := measure_mono _ _ R (uncovered_le_length F U ret)
    omega
  obtain ⟨ret1, lv, hrun⟩ := getAliasThisTypes_total F H U rank R hfin fuel t ret islvalues hr hm
  obtain ⟨⟨suffix, hs⟩, _, _⟩ := getAliasThisTypes_sound F H fuel t ret islvalues ret1 lv hrun
  have hb := getAliasThisTypes_bound F H U rank R hfin fuel t ret islvalues ret1 lv hrun
  subst hs
  refine ⟨suffix, lv, hrun, ?_, uncovered_le_length F U ret⟩
  rw [List.length_append] at hb
  omega

/-- An instance of C19: the cycle `A` to `B` to `A` of the example; the call on
`A` returns `[B, A]`. -/
theorem getAliasThisTypes_terminates_on_cycles_witness :
    (∃ suffix lv, getAliasThisTypes Example.F Example.H 20 Example.tA [] (some []) =
        .ok ([] ++ suffix, lv) ∧
      suffix.length ≤ uncovered Example.F Example.U [] ∧
      uncovered Example.F Example.U [] ≤ Example.U.length) ∧
    getAliasThisTypes Example.F Example.H 20 Example.tA [] (some []) =
      .ok ([Example.tB, Example.tA], some [true]) :=
  ⟨getAliasThisTypes_terminates_on_cycles Example.F Example.H Example.U Example.rank 1
    Example.finiteTypes Example.tA (by decide) [] (some []) 20 (by decide), rfl⟩

/-- One call of `AliasThis::semantic` that returns keeps every present array
non-empty: the array is created only on the path that pushes (lines 440-441 and
489), and the short-circuit of lines 431-436 shares the pointer of another
aggregate. -/
theorem semantic_lists_non_empty (F : Frontend) (H H1 : Heap) (this : AliasThis) (sc : Scope)
    (hinv : ListsNonEmpty H) (hrun : (this.semantic F H sc).2 = .ok H1) :
    ListsNonEmpty H1 := by
  unfold AliasThis.semantic at hrun
  simp only at hrun
  split at hrun
  · simp only [Except.ok.injEq] at hrun
    rw [← hrun]; exact hinv
  · split at hrun
    · split at hrun
      · simp only [Except.ok.injEq] at hrun
        rw [← hrun]; exact hinv
      · simp only [Except.ok.injEq] at hrun
        rw [← hrun]; exact hinv
    · split at hrun
      · split at hrun
        · simp only [Except.ok.injEq] at hrun
          rw [← hrun]
          intro ad1 a ha
          simp only at ha
          by_cases hadd : ad1 = sc.parent
          · subst hadd
            rw [Function.update_same] at ha
            exact hinv _ a ha
          · rw [Function.update_noteq hadd] at ha
            exact hinv _ a ha
        · cases hrun
      · split at hrun
        · cases hrun
        · simp only [Except.ok.injEq] at hrun
          rw [← hrun]
          intro ad1 a ha
          unfold pushSymbol ensureArray at ha ⊢
          cases hp : H.aliasThisSymbols sc.parent with
          | some a0 =>
            simp only [hp] at ha ⊢
            obtain ⟨hlt, hne⟩ := hinv ad1 a ha
            refine ⟨hlt, ?_⟩
            by_cases haa : a = a0
            · subst haa
              rw [Function.update_same]
              simp
            · rw [Function.update_noteq haa]
              exact hne
          | none =>
            simp only [hp] at ha ⊢
            by_cases hadd : ad1 = sc.parent
            · subst hadd
              rw [Function.update_same] at ha
              simp only [Option.some.injEq] at ha
              subst ha
              refine ⟨Nat.lt_succ_self _, ?_⟩
              rw [Function.update_same]
              simp
            · rw [Function.update_noteq hadd] at ha
              obtain ⟨hlt, hne⟩ := hinv ad1 a ha
              have hane : a ≠ H.next := by omega
              refine ⟨by omega, ?_⟩
              rw [Function.update_noteq hane, Function.update_noteq hane]
              exact hne

/-- C20. From a heap in which every present array has an element (in particular
the initial heap, where every `aliasThisSymbols` is null), after every
sequence of calls of `AliasThis::semantic` that returns, on any aggregates and
in any order, every array that is present on an aggregate has an element 0:
the read of `(*aliasThisSymbols)[0]` in `isAliasThisTuple` (line 320) and in
the tuple checks of `AliasThis::semantic` finds a symbol. -/
theorem semanticSeq_lists_non_empty (F : Frontend) (H0 H : Heap)
    (decls : List (AliasThis × Scope)) (h0 : ListsNonEmpty H0)
    (hrun : (semanticSeq F H0 decls).2 = .ok H) :
    ∀ ad L, H.symbols ad = some L → L ≠ [] ∧ ∃ s0, L[0]? = some s0 := by
  have hinv : ListsNonEmpty H := by
    induction decls generalizing H0 with
    | nil =>
      simp only [semanticSeq, Except.ok.injEq] at hrun
      rw [← hrun]; exact h0
    | cons d rest ih =>
      obtain ⟨a, sc⟩ := d
      rw [semanticSeq] at hrun
      rcases hstep : a.semantic F H0 sc with ⟨errs, res⟩
      rw [hstep] at hrun
      cases res with
      | error f => cases hrun
      | ok H1 =>
        simp only at hrun
        exact ih H1 (semantic_lists_non_empty F H0 H1 a sc h0 (by rw [hstep])) hrun
  intro ad L hL
  unfold Heap.symbols at hL
  cases hp : H.aliasThisSymbols ad with
  | none => rw [hp] at hL; cases hL
  | some a =>
    rw [hp] at hL
    simp only [Option.map_some', Option.some.injEq] at hL
    have hne := (hinv ad a hp).2
    rw [hL] at hne
    refine ⟨hne, ?_⟩
    cases L with
    | nil => exact absurd rfl hne
    | cons s0 rest => exact ⟨s0, List.getElem?_cons_zero⟩

/-- An instance of C20: `alias x this; alias z this;` in the struct `S`, from the
heap where every `aliasThisSymbols` is null. -/
theorem semanticSeq_lists_non_empty_witness :
    ((semanticSeq Registry.F Registry.H0 [(⟨"x"⟩, Registry.sc), (⟨"z"⟩, Registry.sc)]).2 =
        .ok Registry.afterSeq ∧
      Registry.afterSeq.symbols 40 = some [41, 44]) ∧
    (∀ ad L, Registry.afterSeq.symbols ad = some L → L ≠ [] ∧ ∃ s0, L[0]? = some s0) :=
  ⟨⟨rfl, rfl⟩,
   semanticSeq_lists_non_empty Registry.F Registry.H0 Registry.afterSeq
    [(⟨"x"⟩, Registry.sc), (⟨"z"⟩, Registry.sc)]
    (fun _ _ h => by cases h) rfl⟩

/-- C3. Sibling independence. Let the aggregate of `e` (a struct or a class, with
or without base classes) have the two alias-this symbols `s0` and `s1`, in
this order, let their candidates `e0` and `e1` be kept by the loop and have
types that are not aggregates, and let the delegate return (`ok0`, `o0`) on
`e0` and then (`ok1`, `o1`) on `e1`, whatever these values are. Then the run
returns, and the delegate has been called on `e0` first and on `e1` second,
also when it has returned true on `e0`; the calls that follow are those of the
search of the base classes (none when there is no base class), and they
account for the rest of the result. So with a delegate that accepts only the
candidate of type Y and yields `out` for it, in either order of the two
symbols, the flag is true and, the base classes yielding nothing, `ret` has
gained exactly `out`. -/
theorem iterateAliasThis_sibling_independence {Ctx : Type} (F : Frontend) (H : Heap)
    (dg : Delegate Ctx) (sc : Scope) (e : Expression) (ctx ctx1 ctx2 : Ctx) (ret : Expressions)
    (gagerrors : Bool) (type t0 t1 : Type_) (s0 s1 : Dsymbol) (e0 e1 : Expression)
    (n0 n1 : Nat) (ok0 ok1 : Bool) (o0 o1 : Option Expression) (keys : List String) (fuel : Nat)
    (hfin : FiniteGraph F sc keys) (he : e.type = some type) (hk : type.deco ∈ keys)
    (hfuel : keys.length ≤ fuel + 1)
    (hagg : (F.toBasetype type).ty = TY.Tstruct ∨ (F.toBasetype type).ty = TY.Tclass)
    (hsyms : H.symbols (F.toBasetype type).sym = some [s0, s1])
    (h0 : resolveAliasThis F H sc e 0 = .ok (e0, n0))
    (h1 : resolveAliasThis F H sc e 1 = .ok (e1, n1))
    (hg0 : (gagerrors && decide (n0 ≠ 0)) = false) (hg1 : (gagerrors && decide (n1 ≠ 0)) = false)
    (he0 : e0.type = some t0) (he1 : e1.type = some t1)
    (hn0 : t0.ty ≠ TY.Terror) (hn1 : t1.ty ≠ TY.Terror)
    (hs0 : (F.toBasetype t0).ty ≠ TY.Tstruct) (hc0 : (F.toBasetype t0).ty ≠ TY.Tclass)
    (hs1 : (F.toBasetype t1).ty ≠ TY.Tstruct) (hc1 : (F.toBasetype t1).ty ≠ TY.Tclass)
    (hd0 : dg sc e0 ctx = (ok0, o0, ctx1))
    (hd1 : dg sc e1 ctx1 = (ok1, o1, ctx2)) :
    ∃ resL baseCalls,
      iterateAliasThis F H (logged dg) (fuel + 2) sc e (ctx, []) ret gagerrors none = .ok resL ∧
      iterateAliasThis F H dg (fuel + 2) sc e ctx ret gagerrors none = .ok resL.forget ∧
      resL.ctx.2 = [⟨e0, ok0, o0⟩, ⟨e1, ok1, o1⟩] ++ baseCalls ∧
      Accounts dg sc baseCalls (ok0 || ok1) (pushNonNull (pushNonNull ret o0) o1)
        resL.r resL.ret ∧
      ((type.ty = TY.Tclass → F.baseclasses type.sym = []) →
        baseCalls = [] ∧ resL.r = (ok0 || ok1) ∧
          resL.ret = pushNonNull (pushNonNull ret o0) o1) := by
  have hrec0 : ∀ (c : Ctx × List Invocation) (r : Expressions) (dt : Option StringTable),
      iterateAliasThis F H (logged dg) (fuel + 1) sc e0 c r gagerrors dt =
        .ok { r := false, ctx := c, ret := r, directtypes := dt } :=
    fun c r dt => iterateAliasThis_nonaggregate F H (logged dg) fuel sc e0 c r gagerrors dt t0
      he0 hs0 hc0
  have hrec1 : ∀ (c : Ctx × List Invocation) (r : Expressions) (dt : Option StringTable),
      iterateAliasThis F H (logged dg) (fuel + 1) sc e1 c r gagerrors dt =
        .ok { r := false, ctx := c, ret := r, directtypes := dt } :=
    fun c r dt => iterateAliasThis_nonaggregate F H (logged dg) fuel sc e1 c r gagerrors dt t1
      he1 hs1 hc1
  have hl0 : logged dg sc e0 (ctx, []) = (ok0, o0, (ctx1, [⟨e0, ok0, o0⟩])) := by
    simp [logged, hd0]
  have hl1 : logged dg sc e1 (ctx1, [⟨e0, ok0, o0⟩]) =
      (ok1, o1, (ctx2, [⟨e0, ok0, o0⟩, ⟨e1, ok1, o1⟩])) := by
    simp [logged, hd1]
  have hdirect : ∀ dt1 : StringTable, directLoop F H (logged dg)
      (fun e1 c1 ret1 dt => iterateAliasThis F H (logged dg) (fuel + 1) sc e1 c1 ret1 gagerrors dt)
      sc e gagerrors [0, 1]
      { r := false, ctx := (ctx, []), ret := ret, directtypes := dt1 } =
      .ok { r := ok0 || ok1, ctx := (ctx2, [⟨e0, ok0, o0⟩, ⟨e1, ok1, o1⟩]),
            ret := pushNonNull (pushNonNull ret o0) o1, directtypes := dt1 } := by
    intro dt1
    cases ok0 <;> cases ok1 <;>
      simp only [directLoop, h0, h1, hg0, hg1, he0, he1, hn0, hn1, hl0, hl1, recurse, hrec0,
        hrec1, Bool.false_eq_true, if_false, Bool.not_false, Bool.not_true, if_true,
        Bool.or_false, Bool.or_true, Bool.false_or, Bool.or_self, Option.getD_some]
  obtain ⟨res, hres, _⟩ := iterateAliasThis_total F H (logged dg) sc gagerrors keys hfin
    (fuel + 2) e (ctx, []) ret none type he hk
    (lt_of_le_of_lt (unmarked_le keys _) (by omega))
  have hsim := iterateAliasThis_simulates F H dg sc gagerrors (fuel + 2) e (ctx, []) ret none
  rw [hres] at hsim
  simp only [Except.map] at hsim
  refine ⟨res, ?_⟩
  have hres2 := hres
  rw [iterateAliasThis] at hres2
  simp only [he, hagg, if_true] at hres2
  rcases markVisited_spec ((none : Option StringTable).getD []) type e with
    ⟨_, hm⟩ | ⟨dt1, hmv, _, _⟩
  · cases hm
  · simp only [hmv] at hres2
    unfold loops at hres2
    simp only [hsyms] at hres2
    have hrange : List.range [s0, s1].length = [0, 1] := rfl
    rw [hrange, hdirect dt1] at hres2
    simp only at hres2
    have htr : CallTraced dg sc (fun e1 (c1 : Ctx × List Invocation) ret1 dt =>
        iterateAliasThis F H (logged dg) (fuel + 1) sc e1 c1 ret1 gagerrors dt) :=
      fun e1 c1 ret1 dt res1 hr =>
        iterateAliasThis_traced F H dg sc gagerrors (fuel + 1) e1 c1 ret1 dt res1 hr
    by_cases hc : type.ty = TY.Tclass
    · rw [if_pos hc] at hres2
      split at hres2
      · cases hres2
      · next st2 hbase =>
        simp only [Except.ok.injEq] at hres2
        obtain ⟨calls, hlog, hacc⟩ := baseLoop_traced F dg _ sc e htr _ _ _ hbase
        refine ⟨calls, hres, hsim, ?_, ?_, ?_⟩
        · rw [← hres2]; exact hlog
        · rw [← hres2]; exact hacc
        · intro hb
          rw [hb hc] at hbase
          simp only [baseLoop, Except.ok.injEq] at hbase
          rw [← hbase] at hlog
          have hnil : calls = [] := by simpa using hlog
          refine ⟨hnil, ?_, ?_⟩
          · rw [← hres2, ← hbase]
          · rw [← hres2, ← hbase]
    · rw [if_neg hc] at hres2
      simp only [Except.ok.injEq] at hres2
      refine ⟨[], hres, hsim, ?_, ?_, ?_⟩
      · rw [← hres2]; rfl
      · rw [← hres2]; exact Accounts.nil dg sc _ _
      · intro _
        refine ⟨rfl, ?_, ?_⟩
        · rw [← hres2]
        · rw [← hres2]

/-- Two instances of C3 on the struct `P` of the example, whose alias-this symbols
are `x` of type `int` and `y` of type `long`: with a delegate that accepts
`long` (the second candidate), and with a delegate that accepts `int` (the
first candidate: the second is still tried). -/
theorem iterateAliasThis_sibling_independence_witness :
    (∃ resL baseCalls,
      iterateAliasThis Example.F Example.H (logged (Example.dgOn Example.tY)) (15 + 2) {}
        (Example.exp Example.tP) (0, []) [] false none = .ok resL ∧
      iterateAliasThis Example.F Example.H (Example.dgOn Example.tY) (15 + 2) {}
        (Example.exp Example.tP) 0 [] false none = .ok resL.forget ∧
      resL.ctx.2 = [⟨.Exp 0 .TOKother (some Example.tX) none, false, none⟩,
          ⟨.Exp 0 .TOKother (some Example.tY) none, true,
            some (.Exp 0 .TOKother (some Example.tY) none)⟩] ++ baseCalls ∧
      Accounts (Example.dgOn Example.tY) {} baseCalls (false || true)
        (pushNonNull (pushNonNull [] none) (some (.Exp 0 .TOKother (some Example.tY) none)))
        resL.r resL.ret ∧
      ((Example.tP.ty = TY.Tclass → Example.F.baseclasses Example.tP.sym = []) →
        baseCalls = [] ∧ resL.r = (false || true) ∧
          resL.ret = pushNonNull (pushNonNull [] none)
            (some (.Exp 0 .TOKother (some Example.tY) none)))) ∧
    (∃ resL baseCalls,
      iterateAliasThis Example.F Example.H (logged (Example.dgOn Example.tX)) (15 + 2) {}
        (Example.exp Example.tP) (0, []) [] false none = .ok resL ∧
      iterateAliasThis Example.F Example.H (Example.dgOn Example.tX) (15 + 2) {}
        (Example.exp Example.tP) 0 [] false none = .ok resL.forget ∧
      resL.ctx.2 = [⟨.Exp 0 .TOKother (some Example.tX) none, true,
            some (.Exp 0 .TOKother (some Example.tX) none)⟩,
          ⟨.Exp 0 .TOKother (some Example.tY) none, false, none⟩] ++ baseCalls ∧
      Accounts (Example.dgOn Example.tX) {} baseCalls (true || false)
        (pushNonNull (pushNonNull [] (some (.Exp 0 .TOKother (some Example.tX) none))) none)
        resL.r resL.ret ∧
      ((Example.tP.ty = TY.Tclass → Example.F.baseclasses Example.tP.sym = []) →
        baseCalls = [] ∧ resL.r = (true || false) ∧
          resL.ret = pushNonNull (pushNonNull [] (some (.Exp 0 .TOKother (some Example.tX) none)))
            none)) :=
  ⟨iterateAliasThis_sibling_independence Example.F Example.H (Example.dgOn Example.tY) {}
      (Example.exp Example.tP) 0 1 2 [] false Example.tP Example.tX Example.tY 12 13
      (.Exp 0 .TOKother (some Example.tX) none) (.Exp 0 .TOKother (some Example.tY) none)
      0 0 false true none (some (.Exp 0 .TOKother (some Example.tY) none)) Example.keys 15
      (Example.finite {}) rfl (by decide) (by decide) (by decide) rfl rfl rfl (by decide)
      (by decide) rfl rfl (by decide) (by decide) (by decide) (by decide) (by decide)
      (by decide) rfl rfl,
   iterateAliasThis_sibling_independence Example.F Example.H (Example.dgOn Example.tX) {}
      (Example.exp Example.tP) 0 1 2 [] false Example.tP Example.tX Example.tY 12 13
      (.Exp 0 .TOKother (some Example.tX) none) (.Exp 0 .TOKother (some Example.tY) none)
      0 0 true false (some (.Exp 0 .TOKother (some Example.tX) none)) none Example.keys 15
      (Example.finite {}) rfl (by decide) (by decide) (by decide) rfl rfl rfl (by decide)
      (by decide) rfl rfl (by decide) (by decide) (by decide) (by decide) (by decide)
      (by decide) rfl rfl⟩

end Dmd
